import Mathlib

/-!
Verification of the distarray indexing/mapping engine
(`distarray/local/maps.py` and the descriptor-table entry point in
`distarray/context.py`).

The Python code is shallowly embedded: Python `int` becomes `Int`,
Python floor division `//` and `%` become `Int.fdiv` / `Int.fmod`
(which agree with Python for every nonzero divisor; all divisors
appearing in the claims are positive), fallible calls return
`Except Err`, and each map class becomes a structure holding exactly
the attributes its `__init__` assigns.
-/

/-- The Python exception kinds raised by the embedded code. -/
inductive Err where
  | indexError
  | keyError
  | valueError
  | typeError
  | attributeError
  deriving DecidableEq, Repr

/-- Python `range(a, b, s)` for a positive step `s`: the list
`[a, a+s, a+2*s, ...]` of length `max 0 (ceil((b-a)/s))`. -/
def pyRangeStep (a b s : Int) : List Int :=
  (List.range ((b - a + s - 1).fdiv s).toNat).map (fun k : Nat => a + (k : Int) * s)

/-- Python `range(a, b)`. -/
def pyRange (a b : Int) : List Int :=
  pyRangeStep a b 1

/-- Python `list.index(g)`: index of the first occurrence of `g`,
`none` when `g` is absent (Python raises `ValueError` then). -/
def pyListIndex (xs : List Int) (g : Int) : Option Nat :=
  match xs with
  | [] => none
  | x :: rest => if x = g then some 0 else (pyListIndex rest g).map (· + 1)

/-- Python `xs[i]` on a list: a negative index counts from the end;
an index out of range raises `IndexError`. -/
def pyGetItem (xs : List Int) (i : Int) : Except Err Int :=
  let j := if i < 0 then i + xs.length else i
  if 0 ≤ j ∧ j < xs.length then .ok (xs.getD j.toNat 0) else .error .indexError

/-- Lookup in a Python dict built as `dict(pairs)`: the latest binding
of a key wins; a missing key raises `KeyError`. -/
def dictGet (pairs : List (Int × Int)) (k : Int) : Except Err Int :=
  match pairs.reverse.find? (fun p => p.1 = k) with
  | some p => .ok p.2
  | none => .error .keyError

/-! ## BlockMap (maps.py lines 72-119) -/

/-- `BlockMap`: the attributes assigned by `BlockMap.__init__`
(`local_size = stop - start` is recomputed by `BlockMap.local_size`). -/
structure BlockMap where
  global_size : Int
  grid_size : Int
  grid_rank : Int
  start : Int
  stop : Int
  deriving DecidableEq, Repr

/-- `self.local_size = stop - start` from `BlockMap.__init__`. -/
def BlockMap.local_size (m : BlockMap) : Int :=
  m.stop - m.start

/-- `BlockMap.local_from_global` (lines 85-88). -/
def BlockMap.local_from_global (m : BlockMap) (gidx : Int) : Except Err Int :=
  if gidx < m.start ∨ gidx ≥ m.stop then .error .indexError
  else .ok (gidx - m.start)

/-- `BlockMap.global_from_local` (lines 90-93). -/
def BlockMap.global_from_local (m : BlockMap) (lidx : Int) : Except Err Int :=
  if lidx ≥ m.local_size then .error .indexError
  else .ok (lidx + m.start)

/-- `BlockMap.global_index`: `list(range(start, stop))` (lines 108-110). -/
def BlockMap.global_index (m : BlockMap) : List Int :=
  pyRange m.start m.stop

/-- `BlockMap.local_index`: `dict(zip(global_index, range(local_size)))`
(lines 112-115), kept as the zipped pair list. -/
def BlockMap.local_index (m : BlockMap) : List (Int × Int) :=
  List.zip m.global_index (pyRange 0 m.local_size)

/-- `BlockMap.size = len(global_index)` (lines 117-119). -/
def BlockMap.size (m : BlockMap) : Nat :=
  m.global_index.length

/-! ## CyclicMap (maps.py lines 122-174) -/

/-- `CyclicMap`: attributes assigned by `CyclicMap.__init__`
(`local_size` is recomputed by `CyclicMap.local_size`). -/
structure CyclicMap where
  global_size : Int
  grid_size : Int
  grid_rank : Int
  start : Int
  deriving DecidableEq, Repr

/-- `CyclicMap.__init__` (lines 126-138): rejects `start != grid_rank`
and `start >= grid_size` with `ValueError`. -/
def CyclicMap.init (global_size grid_size grid_rank start : Int) :
    Except Err CyclicMap :=
  if start ≠ grid_rank then .error .valueError
  else if start ≥ grid_size then .error .valueError
  else .ok ⟨global_size, grid_size, grid_rank, start⟩

/-- `self.local_size = (global_size - 1 - grid_rank) // grid_size + 1`
(line 137, Python floor division). -/
def CyclicMap.local_size (m : CyclicMap) : Int :=
  (m.global_size - 1 - m.grid_rank).fdiv m.grid_size + 1

/-- `CyclicMap.local_from_global` (lines 141-144): raises `IndexError`
when `(gidx - start) % grid_size` is nonzero. -/
def CyclicMap.local_from_global (m : CyclicMap) (gidx : Int) : Except Err Int :=
  if (gidx - m.start).fmod m.grid_size ≠ 0 then .error .indexError
  else .ok ((gidx - m.start).fdiv m.grid_size)

/-- `CyclicMap.global_from_local` (lines 146-149). -/
def CyclicMap.global_from_local (m : CyclicMap) (lidx : Int) : Except Err Int :=
  if lidx ≥ m.local_size then .error .indexError
  else .ok (lidx * m.grid_size + m.start)

/-- `CyclicMap.global_index`: `list(range(start, global_size, grid_size))`
(lines 163-165). -/
def CyclicMap.global_index (m : CyclicMap) : List Int :=
  pyRangeStep m.start m.global_size m.grid_size

/-- `CyclicMap.local_index` (lines 167-170). -/
def CyclicMap.local_index (m : CyclicMap) : List (Int × Int) :=
  List.zip m.global_index (pyRange 0 m.local_size)

/-- `CyclicMap.size = len(global_index)` (lines 172-174). -/
def CyclicMap.size (m : CyclicMap) : Nat :=
  m.global_index.length

/-! ## BlockCyclicMap (maps.py lines 177-242)

`BlockCyclicMap.__init__` assigns exactly `start`, `start_block`,
`block_size`, `grid_size`, `local_size` and `global_size`; in
particular it never assigns `self.grid_rank`, although the `dim_dict`
property (lines 217-225) reads `self.grid_rank`. -/

/-- `BlockCyclicMap`: exactly the attributes `__init__` assigns
(note the absence of `grid_rank`). -/
structure BlockCyclicMap where
  start : Int
  start_block : Int
  block_size : Int
  grid_size : Int
  local_size : Int
  global_size : Int
  deriving DecidableEq, Repr

/-- `BlockCyclicMap.__init__` (lines 181-194): rejects `start` not a
multiple of `block_size` and `global_size` not a multiple of
`block_size` with `ValueError`.  (The claims only exercise nonzero
`block_size`, where `Int.fmod`/`Int.fdiv` agree with Python.) -/
def BlockCyclicMap.init (global_size grid_size grid_rank start block_size : Int) :
    Except Err BlockCyclicMap :=
  if start.fmod block_size ≠ 0 then .error .valueError
  else
    let start_block := start.fdiv block_size
    let global_nblocks := global_size.fdiv block_size
    if global_nblocks * block_size ≠ global_size then .error .valueError
    else
      let local_nblocks := (global_nblocks - 1 - grid_rank).fdiv grid_size + 1
      .ok ⟨start, start_block, block_size, grid_size,
           local_nblocks * block_size, global_size⟩

/-- `BlockCyclicMap.local_from_global` (lines 197-201):
`global_block, offset = divmod(gidx, block_size)`, then the block
residue check. -/
def BlockCyclicMap.local_from_global (m : BlockCyclicMap) (gidx : Int) :
    Except Err Int :=
  let global_block := gidx.fdiv m.block_size
  let offset := gidx.fmod m.block_size
  if (global_block - m.start_block).fmod m.grid_size ≠ 0 then .error .indexError
  else .ok (m.block_size * ((global_block - m.start_block).fdiv m.grid_size) + offset)

/-- `BlockCyclicMap.global_from_local` (lines 203-208). -/
def BlockCyclicMap.global_from_local (m : BlockCyclicMap) (lidx : Int) :
    Except Err Int :=
  if lidx ≥ m.local_size then .error .indexError
  else
    let local_block := lidx.fdiv m.block_size
    let offset := lidx.fmod m.block_size
    let global_block := local_block * m.grid_size + m.start_block
    .ok (global_block * m.block_size + offset)

/-- The sequence of values `global_from_local(i)` computed by the fill
loop of `BlockCyclicMap.global_index` (lines 235-236), before each is
stored into the `np.int32` array; each call succeeds there, so the
`getD 0` default is never used.  The array actually returned by the
`global_index` property is `global_index_i32` below. -/
def BlockCyclicMap.global_index (m : BlockCyclicMap) : List Int :=
  (List.range m.local_size.toNat).map
    (fun i : Nat => ((m.global_from_local (i : Int)).toOption).getD 0)

/-- Storage into an `np.int32` cell (line 233): the value is truncated
to 32-bit two's complement, wrapping into `[-2^31, 2^31)`. -/
def toInt32 (x : Int) : Int :=
  (x + 2 ^ 31) % 2 ^ 32 - 2 ^ 31

/-- `BlockCyclicMap.global_index` (lines 231-237): the `np.int32` array
(`np.empty((local_size,), dtype=np.int32)`, line 233) whose cell `i`
holds `global_from_local(i)` truncated to 32 bits. -/
def BlockCyclicMap.global_index_i32 (m : BlockCyclicMap) : List Int :=
  m.global_index.map toInt32

/-- `BlockCyclicMap.local_index` (lines 239-242):
`dict(zip(global_index, range(local_size)))` zips the `np.int32`
array, so the keys are the wrapped entries. -/
def BlockCyclicMap.local_index (m : BlockCyclicMap) : List (Int × Int) :=
  List.zip m.global_index_i32 (pyRange 0 m.local_size)

/-- `BlockCyclicMap.size = len(global_index)` (lines 227-229). -/
def BlockCyclicMap.size (m : BlockCyclicMap) : Nat :=
  m.global_index_i32.length

/-! ## UnstructuredMap (maps.py lines 245-290) -/

/-- `UnstructuredMap`: attributes of `UnstructuredMap.__init__`
(`local_size = len(indices)` and the `_local_index` dict are
recomputed by the functions below). -/
structure UnstructuredMap where
  global_size : Int
  grid_size : Int
  grid_rank : Int
  indices : List Int
  deriving DecidableEq, Repr

/-- `UnstructuredMap.__init__` (lines 249-256): performs no check at
all (in particular no duplicate check on `indices`). -/
def UnstructuredMap.init (global_size grid_size grid_rank : Int)
    (indices : List Int) : Except Err UnstructuredMap :=
  .ok ⟨global_size, grid_size, grid_rank, indices⟩

/-- `self.local_size = len(self.indices)` (line 254). -/
def UnstructuredMap.local_size (m : UnstructuredMap) : Int :=
  (m.indices.length : Int)

/-- `UnstructuredMap.local_from_global` (lines 258-263):
`indices.index(gidx)`, with the `ValueError` converted to `IndexError`. -/
def UnstructuredMap.local_from_global (m : UnstructuredMap) (gidx : Int) :
    Except Err Int :=
  match pyListIndex m.indices gidx with
  | some lidx => .ok (lidx : Int)
  | none => .error .indexError

/-- `UnstructuredMap.global_from_local` (lines 265-266): plain Python
list indexing `self.indices[lidx]`. -/
def UnstructuredMap.global_from_local (m : UnstructuredMap) (lidx : Int) :
    Except Err Int :=
  pyGetItem m.indices lidx

/-- `UnstructuredMap.global_index = indices` (lines 280-282). -/
def UnstructuredMap.global_index (m : UnstructuredMap) : List Int :=
  m.indices

/-- `self._local_index = dict(zip(indices, range(len(indices))))`
(lines 255-256). -/
def UnstructuredMap.local_index (m : UnstructuredMap) : List (Int × Int) :=
  List.zip m.indices (pyRange 0 (m.indices.length : Int))

/-- `UnstructuredMap.size = len(global_index)` (lines 288-290). -/
def UnstructuredMap.size (m : UnstructuredMap) : Nat :=
  m.global_index.length

/-! ## Axis descriptors and the factory (maps.py lines 43-65) -/

/-- A dimension dictionary (axis descriptor): the keys read by
`map_from_dim_dict`; keys a producer may omit are `Option`s. -/
structure DimDict where
  dist_type : String
  size : Int
  start : Option Int := none
  stop : Option Int := none
  proc_grid_rank : Option Int := none
  proc_grid_size : Option Int := none
  block_size : Option Int := none
  indices : Option (List Int) := none
  deriving DecidableEq, Repr

/-- The closed union of the axis map variants built by the factory. -/
inductive AxisMap where
  | block : BlockMap → AxisMap
  | cyclic : CyclicMap → AxisMap
  | blockCyclic : BlockCyclicMap → AxisMap
  | unstructured : UnstructuredMap → AxisMap
  deriving DecidableEq, Repr

/-- `map_from_dim_dict` (lines 43-65): dispatch on `dist_type`, with the
defaults `grid_rank=0`, `grid_size=1`, `block_size=1` from `dd.get`.
A required key that is absent makes the subsequent Python arithmetic
fail (`TypeError` on `None`), except for Cyclic where `None != grid_rank`
is truthy and `__init__` raises `ValueError`. -/
def map_from_dim_dict (dd : DimDict) : Except Err AxisMap :=
  let grid_rank := dd.proc_grid_rank.getD 0
  let grid_size := dd.proc_grid_size.getD 1
  let block_size := dd.block_size.getD 1
  if dd.dist_type = "n" then
    .ok (.block ⟨dd.size, grid_size, grid_rank, 0, dd.size⟩)
  else if dd.dist_type = "b" then
    match dd.start, dd.stop with
    | some start, some stop => .ok (.block ⟨dd.size, grid_size, grid_rank, start, stop⟩)
    | _, _ => .error .typeError
  else if dd.dist_type = "c" ∧ block_size = 1 then
    match dd.start with
    | some start => (CyclicMap.init dd.size grid_size grid_rank start).map .cyclic
    | none => .error .valueError
  else if dd.dist_type = "c" ∧ block_size > 1 then
    match dd.start with
    | some start =>
        (BlockCyclicMap.init dd.size grid_size grid_rank start block_size).map .blockCyclic
    | none => .error .typeError
  else if dd.dist_type = "u" then
    match dd.indices with
    | some indices => (UnstructuredMap.init dd.size grid_size grid_rank indices).map .unstructured
    | none => .error .typeError
  else .error .valueError

/-- `BlockMap.dim_dict` (lines 98-106). -/
def BlockMap.dim_dict (m : BlockMap) : DimDict :=
  { dist_type := "b", size := m.global_size,
    proc_grid_rank := some m.grid_rank, proc_grid_size := some m.grid_size,
    start := some m.start, stop := some m.stop }

/-- `CyclicMap.dim_dict` (lines 154-161). -/
def CyclicMap.dim_dict (m : CyclicMap) : DimDict :=
  { dist_type := "c", size := m.global_size,
    proc_grid_rank := some m.grid_rank, proc_grid_size := some m.grid_size,
    start := some m.start }

/-- `BlockCyclicMap.dim_dict` (lines 217-225) reads `self.grid_rank`,
an attribute `BlockCyclicMap.__init__` (lines 181-194) never assigns,
so in Python the property access raises `AttributeError`. -/
def BlockCyclicMap.dim_dict (_ : BlockCyclicMap) : Except Err DimDict :=
  .error .attributeError

/-- `UnstructuredMap.dim_dict` (lines 271-278). -/
def UnstructuredMap.dim_dict (m : UnstructuredMap) : DimDict :=
  { dist_type := "u", size := m.global_size,
    proc_grid_rank := some m.grid_rank, proc_grid_size := some m.grid_size,
    indices := some m.indices }

/-- `dim_dict` on the union type. -/
def AxisMap.dim_dict : AxisMap → Except Err DimDict
  | .block m => .ok m.dim_dict
  | .cyclic m => .ok m.dim_dict
  | .blockCyclic m => m.dim_dict
  | .unstructured m => .ok m.dim_dict

/-- `local_index` on the union type. -/
def AxisMap.local_index : AxisMap → List (Int × Int)
  | .block m => m.local_index
  | .cyclic m => m.local_index
  | .blockCyclic m => m.local_index
  | .unstructured m => m.local_index

/-- `local_from_global` on the union type. -/
def AxisMap.local_from_global : AxisMap → Int → Except Err Int
  | .block m => m.local_from_global
  | .cyclic m => m.local_from_global
  | .blockCyclic m => m.local_from_global
  | .unstructured m => m.local_from_global

/-- `global_from_local` on the union type. -/
def AxisMap.global_from_local : AxisMap → Int → Except Err Int
  | .block m => m.global_from_local
  | .cyclic m => m.global_from_local
  | .blockCyclic m => m.global_from_local
  | .unstructured m => m.global_from_local

/-- `global_index` on the union type. -/
def AxisMap.global_index : AxisMap → List Int
  | .block m => m.global_index
  | .cyclic m => m.global_index
  | .blockCyclic m => m.global_index
  | .unstructured m => m.global_index

/-! ## MDMap (maps.py lines 14-40) -/

/-- `MDMap`: the tuple of per-dimension maps. -/
structure MDMap where
  maps : List AxisMap
  deriving DecidableEq, Repr

/-- `MDMap.from_dim_data` (lines 16-22): one `map_from_dim_dict` per
dimension dictionary, no cross-dimension validation. -/
def MDMap.from_dim_data (dim_data : List DimDict) : Except Err MDMap :=
  (dim_data.mapM map_from_dim_dict).map MDMap.mk

/-- `self.ndim = len(self.maps)` (line 21). -/
def MDMap.ndim (md : MDMap) : Nat :=
  md.maps.length

/-- `MDMap.local_from_global` (lines 28-30): for each dimension, the
dict lookup `self.maps[dim].local_index[global_ind[dim]]`; a component
no axis owns raises `KeyError` (dict lookup), and a missing tuple
component raises `IndexError`. -/
def MDMap.local_from_global (md : MDMap) (global_ind : List Int) :
    Except Err (List Int) :=
  (List.range md.maps.length).mapM (fun dim =>
    match md.maps[dim]?, global_ind[dim]? with
    | some m, some g => dictGet m.local_index g
    | _, _ => .error .indexError)

/-! ## Descriptor-table entry point (context.py lines 311-324)

`Context._from_dim_data(dim_data_per_rank)` performs exactly one check
before shipping each rank's `dim_data` to that rank: that the table has
one entry per target rank, raising `TypeError` otherwise.  Each rank
then rebuilds its own maps with `from_dim_data`; no cross-rank
consistency validation exists anywhere. -/

/-- The validation performed by `Context._from_dim_data`
(context.py lines 311-314). -/
def context_from_dim_data_check (targets : List Nat)
    (dim_data_per_rank : List (List DimDict)) : Except Err Unit :=
  if targets.length ≠ dim_data_per_rank.length then .error .typeError
  else .ok ()

/-- Ceiling division `⌈a / b⌉`, the `ceil_div` the spec speaks of,
implemented for positive `b` as `(a + b - 1) // b`; the lemma
`ceil_div_char` below certifies it is ceiling division. -/
def ceil_div (a b : Int) : Int :=
  (a + b - 1).fdiv b

/-! ## Arithmetic helper lemmas -/

theorem ceil_div_char {a b : Int} (hb : 0 < b) :
    a ≤ b * ceil_div a b ∧ b * ceil_div a b < a + b := by
  unfold ceil_div
  rw [Int.fdiv_eq_ediv _ (le_of_lt hb)]
  have h1 := Int.ediv_add_emod (a + b - 1) b
  have h2 := Int.emod_nonneg (a + b - 1) (ne_of_gt hb)
  have h3 := Int.emod_lt_of_pos (a + b - 1) hb
  omega

theorem shift_ediv {x p : Int} (hp : p ≠ 0) : (x + p) / p = x / p + 1 := by
  have := Int.add_mul_ediv_right x 1 hp
  simpa using this

theorem ceil_div_eq_floor_formula {a b : Int} (hb : 0 < b) :
    ceil_div a b = (a - 1) / b + 1 := by
  unfold ceil_div
  rw [Int.fdiv_eq_ediv _ (le_of_lt hb)]
  have : a + b - 1 = (a - 1) + b := by ring
  rw [this, shift_ediv (ne_of_gt hb)]

theorem count_lt_iff {p x : Int} (hp : 0 < p) (k : Int) :
    k < x / p + 1 ↔ k * p ≤ x := by
  rw [Int.lt_add_one_iff, Int.le_ediv_iff_mul_le hp]

theorem local_size_nonneg_aux {n r p : Int} (hn : 0 ≤ n) (hr : 0 ≤ r)
    (hrp : r < p) : 0 ≤ (n - 1 - r) / p + 1 := by
  have hp : 0 < p := lt_of_le_of_lt hr hrp
  have h1 : -p ≤ n - 1 - r := by omega
  have h2 : (-1 : Int) * p / p ≤ (n - 1 - r) / p :=
    Int.ediv_le_ediv hp (by omega)
  rw [Int.mul_ediv_cancel _ (ne_of_gt hp)] at h2
  omega

theorem mem_pyRangeStep {a b s g : Int} (hs : 0 < s) :
    g ∈ pyRangeStep a b s ↔ a ≤ g ∧ g < b ∧ (g - a) % s = 0 := by
  unfold pyRangeStep
  rw [Int.fdiv_eq_ediv _ (le_of_lt hs)]
  simp only [List.mem_map, List.mem_range]
  constructor
  · rintro ⟨k, hk, rfl⟩
    have hk' : (k : Int) < (b - a + s - 1) / s := by omega
    have hks : ((k : Int) + 1) * s ≤ b - a + s - 1 := by
      rw [← Int.le_ediv_iff_mul_le hs]; omega
    rw [add_mul, one_mul] at hks
    have hkp : 0 ≤ (k : Int) * s := mul_nonneg (Int.ofNat_nonneg k) (le_of_lt hs)
    refine ⟨by omega, by omega, ?_⟩
    have h3 : a + (k : Int) * s - a = (k : Int) * s := by ring
    rw [h3, Int.mul_emod_left]
  · rintro ⟨hag, hgb, hmod⟩
    have hd : s ∣ g - a := Int.dvd_of_emod_eq_zero hmod
    have hksk : (g - a) / s * s = g - a := Int.ediv_mul_cancel hd
    have hknn : 0 ≤ (g - a) / s := Int.ediv_nonneg (by omega) (le_of_lt hs)
    refine ⟨((g - a) / s).toNat, ?_, ?_⟩
    · have h2 : (g - a) / s + 1 ≤ (b - a + s - 1) / s := by
        rw [Int.le_ediv_iff_mul_le hs, add_mul, one_mul, hksk]
        omega
      omega
    · rw [Int.toNat_of_nonneg hknn, hksk]
      ring

theorem mem_pyRange {a b g : Int} : g ∈ pyRange a b ↔ a ≤ g ∧ g < b := by
  unfold pyRange
  rw [mem_pyRangeStep (by norm_num)]
  simp

theorem pyRange_length {a b : Int} : ((pyRange a b).length : Int) = max 0 (b - a) := by
  unfold pyRange pyRangeStep
  simp only [List.length_map, List.length_range]
  have h : b - a + 1 - 1 = b - a := by ring
  rw [h, Int.fdiv_one]
  omega

/-! ## Constructor inversion lemmas -/

theorem CyclicMap.cyclic_init_ok {n p r s : Int} {m : CyclicMap} :
    CyclicMap.init n p r s = .ok m ↔ s = r ∧ s < p ∧ m = ⟨n, p, r, s⟩ := by
  unfold CyclicMap.init
  split_ifs with h1 h2
  · simp only [reduceCtorEq, false_iff]
    rintro ⟨rfl, -, -⟩; exact h1 rfl
  · simp only [reduceCtorEq, false_iff]
    rintro ⟨-, hlt, -⟩; omega
  · simp only [Except.ok.injEq]
    constructor
    · rintro rfl
      exact ⟨by omega, by omega, rfl⟩
    · rintro ⟨-, -, rfl⟩; rfl

theorem cyclic_init_ok_self {n p r : Int} (hr : 0 ≤ r) (hrp : r < p) :
    CyclicMap.init n p r r = .ok ⟨n, p, r, r⟩ :=
  CyclicMap.cyclic_init_ok.mpr ⟨rfl, hrp, rfl⟩

theorem BlockCyclicMap.bc_init_ok {n p r s b : Int} {m : BlockCyclicMap} :
    BlockCyclicMap.init n p r s b = .ok m ↔
      s.fmod b = 0 ∧ (n.fdiv b) * b = n ∧
      m = ⟨s, s.fdiv b, b, p, ((n.fdiv b - 1 - r).fdiv p + 1) * b, n⟩ := by
  unfold BlockCyclicMap.init
  dsimp only
  split_ifs with h1 h2
  · simp only [reduceCtorEq, false_iff]
    rintro ⟨h, -, -⟩; exact h1 h
  · simp only [reduceCtorEq, false_iff]
    rintro ⟨-, h, -⟩; exact h2 h
  · simp only [Except.ok.injEq]
    constructor
    · rintro rfl
      exact ⟨by omega, by omega, rfl⟩
    · rintro ⟨-, -, rfl⟩; rfl

/-! ## Python list primitive lemmas -/

theorem pyListIndex_get {xs : List Int} (hnd : xs.Nodup) (i : Nat)
    (h : i < xs.length) : pyListIndex xs (xs.get ⟨i, h⟩) = some i := by
  induction xs generalizing i with
  | nil => simp at h
  | cons x rest ih =>
    rw [List.nodup_cons] at hnd
    cases i with
    | zero => simp [pyListIndex]
    | succ j =>
      have hj : j < rest.length := by simpa using h
      have hget : (x :: rest).get ⟨j + 1, h⟩ = rest.get ⟨j, hj⟩ := rfl
      have hx : x ≠ rest.get ⟨j, hj⟩ := by
        intro he
        exact hnd.1 (he ▸ List.get_mem rest j hj)
      rw [hget]
      simp only [pyListIndex, if_neg hx, ih hnd.2 j hj]
      rfl

theorem pyListIndex_none_iff {xs : List Int} {g : Int} :
    pyListIndex xs g = none ↔ g ∉ xs := by
  induction xs with
  | nil => simp [pyListIndex]
  | cons x rest ih =>
    by_cases hx : x = g
    · simp [pyListIndex, hx]
    · simp [pyListIndex, hx, Option.map_eq_none, ih, Ne.symm hx]

theorem pyListIndex_some_lt {xs : List Int} {g : Int} {i : Nat}
    (h : pyListIndex xs g = some i) : i < xs.length := by
  induction xs generalizing i with
  | nil => simp [pyListIndex] at h
  | cons x rest ih =>
    simp only [pyListIndex] at h
    split at h
    · simp only [Option.some.injEq] at h
      simp only [List.length_cons]
      omega
    · rw [Option.map_eq_some'] at h
      obtain ⟨j, hj, rfl⟩ := h
      have := ih hj
      simp only [List.length_cons]
      omega

theorem pyGetItem_of_nonneg {xs : List Int} {l : Int} (h0 : 0 ≤ l)
    (hl : l < (xs.length : Int)) :
    pyGetItem xs l = .ok (xs.getD l.toNat 0) := by
  unfold pyGetItem
  rw [if_neg (not_lt.mpr h0), if_pos ⟨h0, hl⟩]

theorem pyGetItem_neg_index {xs : List Int} {l : Int}
    (h1 : -(xs.length : Int) ≤ l) (h2 : l < 0) :
    pyGetItem xs l = .ok (xs.getD (l + xs.length).toNat 0) := by
  unfold pyGetItem
  rw [if_pos h2, if_pos ⟨by omega, by omega⟩]

theorem pyGetItem_oob {xs : List Int} {l : Int}
    (h : (xs.length : Int) ≤ l) :
    pyGetItem xs l = .error .indexError := by
  unfold pyGetItem
  have h0 : ¬ l < 0 := by omega
  rw [if_neg h0, if_neg (by omega)]

/-! ## Bijection lemmas (one per variant) -/

theorem BlockMap.block_bijection (m : BlockMap) (l : Int) (h0 : 0 ≤ l)
    (hl : l < m.local_size) :
    Except.bind (m.global_from_local l) m.local_from_global = .ok l := by
  unfold BlockMap.local_size at hl
  unfold BlockMap.global_from_local
  rw [if_neg (by unfold BlockMap.local_size; omega)]
  show m.local_from_global (l + m.start) = .ok l
  unfold BlockMap.local_from_global
  rw [if_neg (by omega)]
  congr 1
  ring

theorem CyclicMap.cyclic_bijection {n p r s : Int} {m : CyclicMap}
    (hm : CyclicMap.init n p r s = .ok m) (hr : 0 ≤ r) (l : Int) (h0 : 0 ≤ l)
    (hl : l < m.local_size) :
    Except.bind (m.global_from_local l) m.local_from_global = .ok l := by
  obtain ⟨hsr, hlt, rfl⟩ := CyclicMap.cyclic_init_ok.mp hm
  have hp : 0 < p := by omega
  have h1 : CyclicMap.global_from_local ⟨n, p, r, s⟩ l = .ok (l * p + s) := by
    unfold CyclicMap.global_from_local
    rw [if_neg (by omega)]
  rw [h1]
  show CyclicMap.local_from_global ⟨n, p, r, s⟩ (l * p + s) = .ok l
  unfold CyclicMap.local_from_global
  dsimp only
  have he : l * p + s - s = l * p := by ring
  rw [he, if_neg (by simp)]
  rw [Int.fdiv_eq_ediv _ (le_of_lt hp), Int.mul_ediv_cancel _ (ne_of_gt hp)]

theorem BlockCyclicMap.gfl_eval {m : BlockCyclicMap} (hb : 0 < m.block_size)
    (l : Int) (hl : l < m.local_size) :
    m.global_from_local l =
      .ok ((l / m.block_size * m.grid_size + m.start_block) * m.block_size
            + l % m.block_size) := by
  unfold BlockCyclicMap.global_from_local
  rw [if_neg (by omega)]
  dsimp only
  rw [Int.fdiv_eq_ediv _ (le_of_lt hb), Int.fmod_eq_emod _ (le_of_lt hb)]

theorem BlockCyclicMap.bc_bijection {n p r s b : Int} {m : BlockCyclicMap}
    (hm : BlockCyclicMap.init n p r s b = .ok m) (hb : 0 < b) (hp : 0 < p)
    (l : Int) (h0 : 0 ≤ l) (hl : l < m.local_size) :
    Except.bind (m.global_from_local l) m.local_from_global = .ok l := by
  obtain ⟨hs, hn, rfl⟩ := BlockCyclicMap.bc_init_ok.mp hm
  set sb := s.fdiv b with hsb
  have hbz : b ≠ 0 := ne_of_gt hb
  have hpz : p ≠ 0 := ne_of_gt hp
  have hbb : (BlockCyclicMap.mk s sb b p (((n.fdiv b - 1 - r).fdiv p + 1) * b) n).block_size = b := rfl
  rw [BlockCyclicMap.gfl_eval (by rw [hbb]; exact hb) l hl]
  show BlockCyclicMap.local_from_global _ _ = _
  unfold BlockCyclicMap.local_from_global
  dsimp only
  have ho0 : 0 ≤ l % b := Int.emod_nonneg l hbz
  have hob : l % b < b := Int.emod_lt_of_pos l hb
  have hg1 : (l / b * p + sb) * b + l % b = l % b + (l / b * p + sb) * b := by ring
  rw [hg1]
  rw [Int.fdiv_eq_ediv _ (le_of_lt hb), Int.fmod_eq_emod _ (le_of_lt hb)]
  rw [Int.add_mul_ediv_right _ _ hbz, Int.ediv_eq_zero_of_lt ho0 hob, zero_add]
  rw [Int.add_mul_emod_self, Int.emod_eq_of_lt ho0 hob]
  have hg2 : l / b * p + sb - sb = l / b * p := by ring
  rw [hg2]
  rw [Int.fmod_eq_emod _ (le_of_lt hp), Int.mul_emod_left]
  rw [if_neg (by simp)]
  rw [Int.fdiv_eq_ediv _ (le_of_lt hp), Int.mul_ediv_cancel _ hpz]
  rw [Int.ediv_add_emod l b]

theorem UnstructuredMap.u_bijection (m : UnstructuredMap) (hnd : m.indices.Nodup)
    (l : Int) (h0 : 0 ≤ l) (hl : l < m.local_size) :
    Except.bind (m.global_from_local l) m.local_from_global = .ok l := by
  have hlen : l < (m.indices.length : Int) := hl
  have hlt : l.toNat < m.indices.length := by omega
  have h1 : m.global_from_local l = .ok (m.indices.get ⟨l.toNat, hlt⟩) := by
    unfold UnstructuredMap.global_from_local
    rw [pyGetItem_of_nonneg h0 hlen, List.getD_eq_get _ _ hlt]
  rw [h1]
  show UnstructuredMap.local_from_global _ _ = _
  unfold UnstructuredMap.local_from_global
  rw [pyListIndex_get hnd l.toNat hlt]
  simp [Int.toNat_of_nonneg h0]

/-! ## Claim C1 -/

/-- C1: for every AxisMap variant constructed with valid parameters
(Cyclic: `start == grid_rank < grid_size`; Block-Cyclic: `block_size`
divides `global_size` and `start`; Unstructured: duplicate-free
`indices`), and every local index `l` with `0 <= l < local_size`,
`local_from_global (global_from_local l) = l`. -/
theorem C1_bijection :
    (∀ (m : BlockMap) (l : Int), 0 ≤ l → l < m.local_size →
       Except.bind (m.global_from_local l) m.local_from_global = .ok l) ∧
    (∀ (n p r s : Int) (m : CyclicMap), CyclicMap.init n p r s = .ok m → 0 ≤ r →
       ∀ l : Int, 0 ≤ l → l < m.local_size →
         Except.bind (m.global_from_local l) m.local_from_global = .ok l) ∧
    (∀ (n p r s b : Int) (m : BlockCyclicMap),
       BlockCyclicMap.init n p r s b = .ok m → 0 < b → 0 < p →
       ∀ l : Int, 0 ≤ l → l < m.local_size →
         Except.bind (m.global_from_local l) m.local_from_global = .ok l) ∧
    (∀ (m : UnstructuredMap), m.indices.Nodup →
       ∀ l : Int, 0 ≤ l → l < m.local_size →
         Except.bind (m.global_from_local l) m.local_from_global = .ok l) :=
  ⟨BlockMap.block_bijection,
   fun _ _ _ _ _ hm hr => CyclicMap.cyclic_bijection hm hr,
   fun _ _ _ _ _ _ hm hb hp => BlockCyclicMap.bc_bijection hm hb hp,
   UnstructuredMap.u_bijection⟩

/-- C1 witness: the bijection at one concrete map of each variant. -/
theorem C1_bijection_witness :
    Except.bind ((BlockMap.mk 31 4 0 0 8).global_from_local 3)
      (BlockMap.mk 31 4 0 0 8).local_from_global = .ok 3 ∧
    Except.bind ((CyclicMap.mk 16 4 2 2).global_from_local 2)
      (CyclicMap.mk 16 4 2 2).local_from_global = .ok 2 ∧
    Except.bind ((BlockCyclicMap.mk 2 1 2 4 4 16).global_from_local 3)
      (BlockCyclicMap.mk 2 1 2 4 4 16).local_from_global = .ok 3 ∧
    Except.bind ((UnstructuredMap.mk 10 1 0 [5, 1, 9]).global_from_local 1)
      (UnstructuredMap.mk 10 1 0 [5, 1, 9]).local_from_global = .ok 1 :=
  ⟨C1_bijection.1 _ 3 (by decide) (by decide),
   C1_bijection.2.1 16 4 2 2 _ rfl (by decide) 2 (by decide) (by decide),
   C1_bijection.2.2.1 16 4 1 2 2 _ rfl (by decide) (by decide) 3 (by decide) (by decide),
   C1_bijection.2.2.2 _ (by decide) 1 (by decide) (by decide)⟩

/-! ## Enumeration lemmas -/

theorem pyRangeStep_length {a b s : Int} :
    ((pyRangeStep a b s).length : Int) = max 0 ((b - a + s - 1).fdiv s) := by
  unfold pyRangeStep
  simp only [List.length_map, List.length_range]
  omega

theorem CyclicMap.cyclic_mem_global_index {m : CyclicMap} {g : Int} (hr : 0 ≤ m.start)
    (hrp : m.start < m.grid_size) :
    g ∈ m.global_index ↔
      0 ≤ g ∧ g < m.global_size ∧ g % m.grid_size = m.start := by
  unfold CyclicMap.global_index
  have hp : 0 < m.grid_size := lt_of_le_of_lt hr hrp
  rw [mem_pyRangeStep hp]
  constructor
  · rintro ⟨hag, hgb, hmod⟩
    refine ⟨by omega, hgb, ?_⟩
    have h4 : g % m.grid_size = m.start % m.grid_size :=
      Int.emod_eq_emod_iff_emod_sub_eq_zero.mpr hmod
    rw [h4, Int.emod_eq_of_lt hr hrp]
  · rintro ⟨h0, hn, hmod⟩
    have h1 : (g - m.start) % m.grid_size = 0 := by
      rw [← Int.emod_eq_emod_iff_emod_sub_eq_zero, hmod, Int.emod_eq_of_lt hr hrp]
    have h2 := Int.ediv_add_emod g m.grid_size
    have h3 : 0 ≤ g / m.grid_size := Int.ediv_nonneg h0 (le_of_lt hp)
    have h5 : 0 ≤ m.grid_size * (g / m.grid_size) := mul_nonneg (le_of_lt hp) h3
    exact ⟨by omega, hn, h1⟩

theorem BlockCyclicMap.global_index_eq {m : BlockCyclicMap} (hb : 0 < m.block_size) :
    m.global_index = (List.range m.local_size.toNat).map
      (fun i : Nat => ((i : Int) / m.block_size * m.grid_size + m.start_block)
        * m.block_size + (i : Int) % m.block_size) := by
  unfold BlockCyclicMap.global_index
  apply List.map_congr_left
  intro i hi
  rw [List.mem_range] at hi
  have hil : (i : Int) < m.local_size := by omega
  rw [BlockCyclicMap.gfl_eval hb _ hil]
  rfl

theorem BlockCyclicMap.bc_mem_global_index {m : BlockCyclicMap} {g : Int}
    (hb : 0 < m.block_size) (hsb : 0 ≤ m.start_block)
    (hsbp : m.start_block < m.grid_size)
    (hls : m.local_size =
      ((m.global_size / m.block_size - 1 - m.start_block) / m.grid_size + 1)
        * m.block_size)
    (hnb : m.global_size / m.block_size * m.block_size = m.global_size) :
    g ∈ m.global_index ↔
      0 ≤ g ∧ g < m.global_size ∧
        (g / m.block_size) % m.grid_size = m.start_block := by
  obtain ⟨s, sb, b, p, ls, n⟩ := m
  dsimp only at hb hsb hsbp hls hnb ⊢
  have hp : 0 < p := lt_of_le_of_lt hsb hsbp
  set N : Int := n / b with hN
  set L : Int := (N - 1 - sb) / p + 1 with hL
  rw [BlockCyclicMap.global_index_eq hb]
  dsimp only
  simp only [List.mem_map, List.mem_range]
  constructor
  · rintro ⟨i, hi, rfl⟩
    have hiI : (i : Int) < L * b := by
      have : (i : Int) < ls := by omega
      rw [hls] at this; exact this
    have hi0 : (0 : Int) ≤ (i : Int) := Int.ofNat_nonneg i
    set q : Int := (i : Int) / b with hq
    set o : Int := (i : Int) % b with ho
    have hq0 : 0 ≤ q := Int.ediv_nonneg hi0 (le_of_lt hb)
    have ho0 : 0 ≤ o := Int.emod_nonneg _ (ne_of_gt hb)
    have hob : o < b := Int.emod_lt_of_pos _ hb
    have hqL : q < L := by
      rw [hq, Int.ediv_lt_iff_lt_mul hb]; exact hiI
    have hqB : q * p ≤ N - 1 - sb := by
      rw [← Int.le_ediv_iff_mul_le hp]; omega
    have hX : 0 ≤ q * p := mul_nonneg hq0 (le_of_lt hp)
    have hY : 0 ≤ (q * p + sb) * b := mul_nonneg (by omega) (le_of_lt hb)
    have hYn : (q * p + sb) * b ≤ (N - 1) * b :=
      mul_le_mul_of_nonneg_right (by omega) (le_of_lt hb)
    have e1 : (N - 1) * b = N * b - b := by ring
    refine ⟨by omega, by omega, ?_⟩
    have e2 : (q * p + sb) * b + o = o + (q * p + sb) * b := by ring
    rw [e2, Int.add_mul_ediv_right _ _ (ne_of_gt hb),
      Int.ediv_eq_zero_of_lt ho0 hob, zero_add]
    have e3 : q * p + sb = sb + q * p := by ring
    rw [e3, Int.add_mul_emod_self, Int.emod_eq_of_lt hsb hsbp]
  · rintro ⟨h0, hgn, hres⟩
    set B : Int := g / b with hB
    set o : Int := g % b with ho
    have hB0 : 0 ≤ B := Int.ediv_nonneg h0 (le_of_lt hb)
    have hBN : B < N := by
      rw [hB, Int.ediv_lt_iff_lt_mul hb, hnb]; exact hgn
    have ho0 : 0 ≤ o := Int.emod_nonneg _ (ne_of_gt hb)
    have hob : o < b := Int.emod_lt_of_pos _ hb
    set q : Int := B / p with hq
    have hq0 : 0 ≤ q := Int.ediv_nonneg hB0 (le_of_lt hp)
    have hqp : p * q + sb = B := by
      have := Int.ediv_add_emod B p
      rw [hres] at this; exact this
    have hqL : q < L := by
      rw [hL, Int.lt_add_one_iff, Int.le_ediv_iff_mul_le hp]
      have hcm : q * p = p * q := mul_comm q p
      omega
    have hi0 : 0 ≤ q * b + o := by
      have : 0 ≤ q * b := mul_nonneg hq0 (le_of_lt hb)
      omega
    have hiL : q * b + o < L * b := by
      have h1 : q * b + o < (q + 1) * b := by
        have : (q + 1) * b = q * b + b := by ring
        omega
      have h2 : (q + 1) * b ≤ L * b :=
        mul_le_mul_of_nonneg_right (by omega) (le_of_lt hb)
      omega
    refine ⟨(q * b + o).toNat, by omega, ?_⟩
    rw [Int.toNat_of_nonneg hi0]
    have e2 : q * b + o = o + q * b := by ring
    rw [e2, Int.add_mul_ediv_right _ _ (ne_of_gt hb),
      Int.ediv_eq_zero_of_lt ho0 hob, zero_add,
      Int.add_mul_emod_self, Int.emod_eq_of_lt ho0 hob]
    have e3 : (q * p + sb) * b + o = (p * q + sb) * b + o := by ring
    rw [e3, hqp]
    have h4 := Int.ediv_add_emod' g b
    rw [← hB, ← ho] at h4
    omega

/-! ## Claim C9 -/

/-- C9: for a Cyclic map with valid parameters, `local_size` equals
`ceil_div(global_size - grid_rank, grid_size)`, is computed as
`(global_size - 1 - grid_rank) // grid_size + 1` under floor division,
and equals the length of the owned-globals enumeration. -/
theorem C9_cyclic_local_size :
    ∀ (n p r s : Int) (m : CyclicMap), CyclicMap.init n p r s = .ok m →
      0 ≤ r → 0 ≤ n →
      m.local_size = ceil_div (n - r) p ∧
      m.local_size = (n - 1 - r).fdiv p + 1 ∧
      (m.global_index.length : Int) = m.local_size := by
  intro n p r s m hm hr hn
  obtain ⟨hsr, hlt, rfl⟩ := CyclicMap.cyclic_init_ok.mp hm
  subst hsr
  have hp : 0 < p := by omega
  have hls : CyclicMap.local_size ⟨n, p, s, s⟩ = (n - 1 - s).fdiv p + 1 := rfl
  have hsp : s < p := hlt
  have hediv : (n - s + p - 1).fdiv p = (n - 1 - s).fdiv p + 1 := by
    rw [Int.fdiv_eq_ediv _ (le_of_lt hp), Int.fdiv_eq_ediv _ (le_of_lt hp)]
    have e : n - s + p - 1 = (n - 1 - s) + p := by ring
    rw [e, shift_ediv (ne_of_gt hp)]
  refine ⟨?_, hls, ?_⟩
  · rw [hls]
    unfold ceil_div
    exact hediv.symm
  · have hglen : ((CyclicMap.global_index ⟨n, p, s, s⟩).length : Int)
        = max 0 ((n - s + p - 1).fdiv p) := pyRangeStep_length
    rw [hglen, hls, hediv]
    have hnn := local_size_nonneg_aux hn hr hsp
    rw [Int.fdiv_eq_ediv _ (le_of_lt hp)]
    omega

/-- C9 witness: the Cyclic map of spec Scenario 2
(`global_size=16`, `grid_size=4`, rank 2). -/
theorem C9_cyclic_local_size_witness :
    (CyclicMap.mk 16 4 2 2).local_size = ceil_div (16 - 2) 4 ∧
    (CyclicMap.mk 16 4 2 2).local_size = ((16 : Int) - 1 - 2).fdiv 4 + 1 ∧
    (((CyclicMap.mk 16 4 2 2).global_index).length : Int)
      = (CyclicMap.mk 16 4 2 2).local_size :=
  C9_cyclic_local_size 16 4 2 2 _ rfl (by decide) (by decide)

/-! ## Claim C4 -/

theorem bc_init_fields {n p r b : Int} {m : BlockCyclicMap} (hb : 0 < b)
    (hp : 0 < p) (hm : BlockCyclicMap.init n p r (r * b) b = .ok m) :
    m.start_block = r ∧ m.block_size = b ∧ m.grid_size = p ∧
    m.global_size = n ∧
    m.local_size = ((n / b - 1 - r) / p + 1) * b ∧ n / b * b = n := by
  obtain ⟨hs, hn, rfl⟩ := BlockCyclicMap.bc_init_ok.mp hm
  have h1 : (r * b).fdiv b = r := Int.mul_fdiv_cancel r (ne_of_gt hb)
  have h2 : n.fdiv b = n / b := Int.fdiv_eq_ediv n (le_of_lt hb)
  have h3 : (n.fdiv b - 1 - r).fdiv p = (n / b - 1 - r) / p := by
    rw [h2]; exact Int.fdiv_eq_ediv _ (le_of_lt hp)
  refine ⟨h1, rfl, rfl, rfl, ?_, ?_⟩
  · show ((n.fdiv b - 1 - r).fdiv p + 1) * b = _
    rw [h3]
  · rw [← h2]; exact hn

theorem bc_init_succeeds {n p r b : Int} (hb : 0 < b) (hdvd : b ∣ n) :
    BlockCyclicMap.init n p r (r * b) b =
      .ok ⟨r * b, (r * b).fdiv b, b, p,
           ((n.fdiv b - 1 - r).fdiv p + 1) * b, n⟩ := by
  apply BlockCyclicMap.bc_init_ok.mpr
  refine ⟨Int.mul_fmod_left r b, ?_, rfl⟩
  rw [Int.fdiv_eq_ediv n (le_of_lt hb)]
  exact Int.ediv_mul_cancel hdvd

theorem bc_mem_char {n p r b g : Int} {m : BlockCyclicMap}
    (hm : BlockCyclicMap.init n p r (r * b) b = .ok m) (hb : 0 < b)
    (hp : 0 < p) (hr : 0 ≤ r) (hrp : r < p) :
    g ∈ m.global_index ↔ 0 ≤ g ∧ g < n ∧ (g / b) % p = r := by
  obtain ⟨e_sb, e_b, e_p, e_n, e_ls, e_nb⟩ := bc_init_fields hb hp hm
  have h := BlockCyclicMap.bc_mem_global_index (m := m) (g := g)
    (by rw [e_b]; exact hb)
    (by rw [e_sb]; exact hr)
    (by rw [e_sb, e_p]; exact hrp)
    (by rw [e_ls, e_sb, e_b, e_p, e_n])
    (by rw [e_b, e_n]; exact e_nb)
  rw [h, e_sb, e_b, e_p, e_n]

theorem toInt32_bounds (x : Int) :
    -(2 ^ 31) ≤ toInt32 x ∧ toInt32 x < 2 ^ 31 := by
  unfold toInt32
  have h1 : 0 ≤ (x + 2 ^ 31) % 2 ^ 32 := Int.emod_nonneg _ (by norm_num)
  have h2 : (x + 2 ^ 31) % 2 ^ 32 < 2 ^ 32 := Int.emod_lt_of_pos _ (by norm_num)
  omega

theorem toInt32_eq_self {x : Int} (h1 : -(2 ^ 31) ≤ x) (h2 : x < 2 ^ 31) :
    toInt32 x = x := by
  unfold toInt32
  rw [Int.emod_eq_of_lt (by omega) (by omega)]
  ring

/-- Below the wrap threshold the stored `np.int32` enumeration equals
the computed one. -/
theorem bc_global_index_i32_eq {n p r b : Int} {m : BlockCyclicMap}
    (hm : BlockCyclicMap.init n p r (r * b) b = .ok m) (hb : 0 < b)
    (hp : 0 < p) (hr : 0 ≤ r) (hrp : r < p) (hn31 : n ≤ 2 ^ 31) :
    m.global_index_i32 = m.global_index := by
  unfold BlockCyclicMap.global_index_i32
  conv_rhs => rw [← List.map_id m.global_index]
  apply List.map_congr_left
  intro x hx
  have h := (bc_mem_char hm hb hp hr hrp).mp hx
  rw [id_eq]
  exact toInt32_eq_self (by omega) (by omega)

/-- C4 counterexample: with `global_size = 2^31 + 1`, `grid_size = 1`,
`block_size = 1`, the single Block-Cyclic map's `np.int32` enumeration
wraps (maps.py:233): the owned global `2^31` is missing from it and the
wrapped entry `-2^31` appears instead, so the owned enumerations do not
partition `range(global_size)` as the claim states for every
`global_size >= 0`. -/
theorem C4_counterexample :
    BlockCyclicMap.init (2 ^ 31 + 1) 1 0 0 1 =
      .ok (BlockCyclicMap.mk 0 0 1 1 (2 ^ 31 + 1) (2 ^ 31 + 1)) ∧
    (2 ^ 31 : Int) ∈ pyRange 0 (2 ^ 31 + 1) ∧
    (2 ^ 31 : Int) ∉
      (BlockCyclicMap.mk 0 0 1 1 (2 ^ 31 + 1) (2 ^ 31 + 1)).global_index_i32 ∧
    (-(2 ^ 31) : Int) ∈
      (BlockCyclicMap.mk 0 0 1 1 (2 ^ 31 + 1) (2 ^ 31 + 1)).global_index_i32 ∧
    (-(2 ^ 31) : Int) ∉ pyRange 0 (2 ^ 31 + 1) := by
  refine ⟨rfl, mem_pyRange.mpr ⟨by norm_num, by norm_num⟩, ?_, ?_, ?_⟩
  · intro hc
    unfold BlockCyclicMap.global_index_i32 at hc
    obtain ⟨x, -, heq⟩ := List.mem_map.mp hc
    have := (toInt32_bounds x).2
    omega
  · unfold BlockCyclicMap.global_index_i32 BlockCyclicMap.global_index
    refine List.mem_map.mpr ⟨2 ^ 31, ?_, by decide⟩
    refine List.mem_map.mpr ⟨2 ^ 31, ?_, by decide⟩
    exact List.mem_range.mpr (by decide)
  · intro hc
    rw [mem_pyRange] at hc
    omega

/-- C4 amended: for `global_size = n >= 0` and `grid_size = p >= 1`,
the owned-global enumerations of the `p` Cyclic maps (rank `r`,
start `r`) are pairwise disjoint and cover `range(n)`; and when
`block_size = b` divides `n` and additionally `n <= 2^31` (so the
`np.int32` enumeration of maps.py:233 does not wrap), the `p`
Block-Cyclic maps with rank `r` and start `r*b` partition `range(n)`
with no overlap and no gap. -/
theorem C4_partition_amended :
    ∀ n p : Int, 0 ≤ n → 0 < p →
      ((∀ r, 0 ≤ r → r < p → CyclicMap.init n p r r = .ok ⟨n, p, r, r⟩) ∧
       (∀ r1 r2 g, 0 ≤ r1 → r1 < p → 0 ≤ r2 → r2 < p → r1 ≠ r2 →
         g ∈ (CyclicMap.mk n p r1 r1).global_index →
         g ∉ (CyclicMap.mk n p r2 r2).global_index) ∧
       (∀ g, (∃ r, 0 ≤ r ∧ r < p ∧ g ∈ (CyclicMap.mk n p r r).global_index) ↔
         g ∈ pyRange 0 n)) ∧
      (∀ b, 0 < b → b ∣ n → n ≤ 2 ^ 31 →
       (∀ r, ∃ m, BlockCyclicMap.init n p r (r * b) b = .ok m) ∧
       (∀ r1 r2 m1 m2 g, 0 ≤ r1 → r1 < p → 0 ≤ r2 → r2 < p → r1 ≠ r2 →
         BlockCyclicMap.init n p r1 (r1 * b) b = .ok m1 →
         BlockCyclicMap.init n p r2 (r2 * b) b = .ok m2 →
         g ∈ m1.global_index_i32 → g ∉ m2.global_index_i32) ∧
       (∀ g, (∃ r m, 0 ≤ r ∧ r < p ∧
           BlockCyclicMap.init n p r (r * b) b = .ok m ∧
           g ∈ m.global_index_i32) ↔
         g ∈ pyRange 0 n)) := by
  intro n p hn hp
  have cyc_mem : ∀ r g : Int, 0 ≤ r → r < p →
      (g ∈ (CyclicMap.mk n p r r).global_index ↔
        0 ≤ g ∧ g < n ∧ g % p = r) := by
    intro r g hr hrp
    exact CyclicMap.cyclic_mem_global_index hr hrp
  refine ⟨⟨fun r hr hrp => cyclic_init_ok_self hr hrp, ?_, ?_⟩, ?_⟩
  · intro r1 r2 g hr1 hr1p hr2 hr2p hne hg1 hg2
    rw [cyc_mem r1 g hr1 hr1p] at hg1
    rw [cyc_mem r2 g hr2 hr2p] at hg2
    exact hne (hg1.2.2 ▸ hg2.2.2)
  · intro g
    rw [mem_pyRange]
    constructor
    · rintro ⟨r, hr, hrp, hg⟩
      rw [cyc_mem r g hr hrp] at hg
      exact ⟨hg.1, hg.2.1⟩
    · rintro ⟨h0, hgn⟩
      refine ⟨g % p, Int.emod_nonneg g (ne_of_gt hp), Int.emod_lt_of_pos g hp, ?_⟩
      rw [cyc_mem (g % p) g (Int.emod_nonneg g (ne_of_gt hp))
        (Int.emod_lt_of_pos g hp)]
      exact ⟨h0, hgn, rfl⟩
  · intro b hb hdvd hn31
    refine ⟨fun r => ⟨_, bc_init_succeeds hb hdvd⟩, ?_, ?_⟩
    · intro r1 r2 m1 m2 g hr1 hr1p hr2 hr2p hne hm1 hm2 hg1 hg2
      rw [bc_global_index_i32_eq hm1 hb hp hr1 hr1p hn31,
        bc_mem_char hm1 hb hp hr1 hr1p] at hg1
      rw [bc_global_index_i32_eq hm2 hb hp hr2 hr2p hn31,
        bc_mem_char hm2 hb hp hr2 hr2p] at hg2
      exact hne (hg1.2.2 ▸ hg2.2.2)
    · intro g
      rw [mem_pyRange]
      constructor
      · rintro ⟨r, m, hr, hrp, hm, hg⟩
        rw [bc_global_index_i32_eq hm hb hp hr hrp hn31,
          bc_mem_char hm hb hp hr hrp] at hg
        exact ⟨hg.1, hg.2.1⟩
      · rintro ⟨h0, hgn⟩
        have hr0 : 0 ≤ (g / b) % p := Int.emod_nonneg _ (ne_of_gt hp)
        have hrp : (g / b) % p < p := Int.emod_lt_of_pos _ hp
        refine ⟨(g / b) % p, _, hr0, hrp, bc_init_succeeds hb hdvd, ?_⟩
        rw [bc_global_index_i32_eq (bc_init_succeeds hb hdvd) hb hp hr0 hrp hn31,
          bc_mem_char (bc_init_succeeds hb hdvd) hb hp hr0 hrp]
        exact ⟨h0, hgn, rfl⟩

/-- C4 witness: the partitions at `n = 16`, `p = 4`, `b = 2`
(spec Scenarios 2 and 3). -/
theorem C4_partition_amended_witness :
    (CyclicMap.init 16 4 1 1 = .ok ⟨16, 4, 1, 1⟩) ∧
    ((6 : Int) ∈ (CyclicMap.mk 16 4 2 2).global_index →
      (6 : Int) ∉ (CyclicMap.mk 16 4 1 1).global_index) ∧
    ((∃ r : Int, 0 ≤ r ∧ r < 4 ∧
       (6 : Int) ∈ (CyclicMap.mk 16 4 r r).global_index) ↔
      (6 : Int) ∈ pyRange 0 16) ∧
    (∃ m, BlockCyclicMap.init 16 4 1 (1 * 2) 2 = .ok m) ∧
    ((∃ r m, 0 ≤ r ∧ r < 4 ∧ BlockCyclicMap.init 16 4 r (r * 2) 2 = .ok m ∧
       (3 : Int) ∈ m.global_index_i32) ↔ (3 : Int) ∈ pyRange 0 16) := by
  have h := C4_partition_amended 16 4 (by decide) (by decide)
  exact ⟨h.1.1 1 (by decide) (by decide),
    fun h6 => h.1.2.1 2 1 6 (by decide) (by decide) (by decide) (by decide)
      (by decide) h6,
    h.1.2.2 6,
    (h.2 2 (by decide) (by decide) (by norm_num)).1 1,
    (h.2 2 (by decide) (by decide) (by norm_num)).2.2 3⟩

/-! ## Claim C2 -/

/-- C2: producing a Block-Cyclic map's descriptor fails.
`BlockCyclicMap.__init__` (maps.py lines 181-194) never assigns
`self.grid_rank`, yet the `dim_dict` property (lines 217-225) reads it,
so `dim_dict` raises `AttributeError` on every `BlockCyclicMap`; the
spec's round-trip law is unsatisfiable for this variant. -/
theorem C2_dim_dict_attribute_missing :
    BlockCyclicMap.init 4 2 0 0 2 = .ok (BlockCyclicMap.mk 0 0 2 2 2 4) ∧
    (BlockCyclicMap.mk 0 0 2 2 2 4).dim_dict = .error .attributeError ∧
    AxisMap.dim_dict (.blockCyclic (BlockCyclicMap.mk 0 0 2 2 2 4)) =
      .error .attributeError :=
  ⟨rfl, rfl, rfl⟩

/-! ## Claim C6 -/

/-- C6 counterexample: `UnstructuredMap.__init__` accepts duplicate
indices without any error, contradicting the claim that duplicate
indices are rejected at construction. -/
theorem C6_counterexample :
    UnstructuredMap.init 2 1 0 [0, 0] = .ok (UnstructuredMap.mk 2 1 0 [0, 0]) ∧
    ¬ ([0, 0] : List Int).Nodup :=
  ⟨rfl, by decide⟩

/-- C6 amended: construction rejects a Cyclic `start != grid_rank` and
a Block-Cyclic `global_size` not a multiple of `block_size` with
`ValueError`, but an Unstructured map accepts any `indices`, duplicates
included, without error. -/
theorem C6_construction_amended :
    (∀ n p r s : Int, s ≠ r → CyclicMap.init n p r s = .error .valueError) ∧
    (∀ n p r s b : Int, 0 < b → ¬ b ∣ n →
      BlockCyclicMap.init n p r s b = .error .valueError) ∧
    (∀ (n p r : Int) (idx : List Int),
      UnstructuredMap.init n p r idx = .ok ⟨n, p, r, idx⟩) := by
  refine ⟨?_, ?_, fun n p r idx => rfl⟩
  · intro n p r s hne
    unfold CyclicMap.init
    rw [if_pos hne]
  · intro n p r s b hb hndvd
    unfold BlockCyclicMap.init
    by_cases h1 : s.fmod b ≠ 0
    · rw [if_pos h1]
    · have hne2 : n.fdiv b * b ≠ n := by
        intro heq
        exact hndvd ⟨n.fdiv b, by rw [mul_comm, heq]⟩
      rw [if_neg h1]
      dsimp only
      rw [if_pos hne2]

/-- C6 witness: the rejections and the duplicate acceptance at
concrete parameters. -/
theorem C6_construction_amended_witness :
    CyclicMap.init 16 4 2 3 = .error .valueError ∧
    BlockCyclicMap.init 15 4 1 2 2 = .error .valueError ∧
    UnstructuredMap.init 2 1 0 [3, 3] = .ok ⟨2, 1, 0, [3, 3]⟩ :=
  ⟨C6_construction_amended.1 16 4 2 3 (by decide),
   C6_construction_amended.2.1 15 4 1 2 2 (by decide) (by omega),
   C6_construction_amended.2.2 2 1 0 [3, 3]⟩

/-! ## Claim C10 -/

/-- C10: the lower bound of `global_from_local` is unchecked: a
negative local index gives `start + l` for Block, `l*grid_size + start`
for Cyclic, and Python negative list indexing (`indices[local_size+l]`)
for Unstructured; none of these raises `IndexError`. -/
theorem C10_negative_local :
    (∀ (m : BlockMap) (l : Int), m.start ≤ m.stop → l < 0 →
       m.global_from_local l = .ok (m.start + l) ∧
       (0 < m.local_size → m.start + l ∉ m.global_index)) ∧
    (∀ (n p r s : Int) (m : CyclicMap), CyclicMap.init n p r s = .ok m →
       0 ≤ r → 0 ≤ n → ∀ l : Int, l < 0 →
       m.global_from_local l = .ok (l * m.grid_size + m.start)) ∧
    (∀ (m : UnstructuredMap) (l : Int),
       -(m.indices.length : Int) ≤ l → l ≤ -1 →
       m.global_from_local l =
         .ok (m.indices.getD (l + m.indices.length).toNat 0)) := by
  refine ⟨?_, ?_, ?_⟩
  · intro m l hse hl
    have hls : 0 ≤ m.local_size := by
      unfold BlockMap.local_size; omega
    constructor
    · unfold BlockMap.global_from_local
      rw [if_neg (by omega)]
      congr 1
      ring
    · intro hpos hmem
      unfold BlockMap.global_index at hmem
      rw [mem_pyRange] at hmem
      omega
  · intro n p r s m hm hr hn l hl
    obtain ⟨hsr, hlt, rfl⟩ := CyclicMap.cyclic_init_ok.mp hm
    subst hsr
    have hp : 0 < p := by omega
    have h1 := local_size_nonneg_aux hn (show (0:Int) ≤ s by omega) hlt
    have hls : 0 ≤ CyclicMap.local_size ⟨n, p, s, s⟩ := by
      show 0 ≤ (n - 1 - s).fdiv p + 1
      rw [Int.fdiv_eq_ediv _ (le_of_lt hp)]
      omega
    unfold CyclicMap.global_from_local
    rw [if_neg (by omega)]
  · intro m l h1 h2
    unfold UnstructuredMap.global_from_local
    exact pyGetItem_neg_index h1 (by omega)

/-- C10 witness: a negative local index on each of the three variants. -/
theorem C10_negative_local_witness :
    (BlockMap.mk 10 2 0 3 7).global_from_local (-2) = .ok 1 ∧
    ((1 : Int) ∉ (BlockMap.mk 10 2 0 3 7).global_index) ∧
    (CyclicMap.mk 16 4 2 2).global_from_local (-1) = .ok (-2) ∧
    (UnstructuredMap.mk 10 1 0 [5, 1, 9]).global_from_local (-1) = .ok 9 := by
  have h1 := C10_negative_local.1 (BlockMap.mk 10 2 0 3 7) (-2)
    (by decide) (by decide)
  exact ⟨h1.1, h1.2 (by decide),
    C10_negative_local.2.1 16 4 2 2 _ rfl (by decide) (by decide) (-1) (by decide),
    C10_negative_local.2.2 (UnstructuredMap.mk 10 1 0 [5, 1, 9]) (-1)
      (by decide) (by decide)⟩

/-! ## Boundary-behaviour lemmas -/

theorem BlockMap.block_lfg_error_iff (m : BlockMap) (g : Int) :
    m.local_from_global g = .error .indexError ↔ g ∉ m.global_index := by
  unfold BlockMap.local_from_global BlockMap.global_index
  rw [mem_pyRange]
  split_ifs with h <;> simp_all <;> omega

theorem BlockMap.block_lfg_ok_of_mem {m : BlockMap} {g : Int}
    (hg : g ∈ m.global_index) :
    m.local_from_global g = .ok (g - m.start) ∧
    0 ≤ g - m.start ∧ g - m.start < m.local_size := by
  unfold BlockMap.global_index at hg
  rw [mem_pyRange] at hg
  unfold BlockMap.local_from_global BlockMap.local_size
  rw [if_neg (by omega)]
  exact ⟨rfl, by omega, by omega⟩

theorem BlockMap.block_gfl_oob {m : BlockMap} {l : Int} (h : m.local_size ≤ l) :
    m.global_from_local l = .error .indexError := by
  unfold BlockMap.global_from_local
  rw [if_pos (by omega)]

theorem CyclicMap.cyclic_lfg_error_iff (m : CyclicMap) (g : Int) :
    m.local_from_global g = .error .indexError ↔
      (g - m.start).fmod m.grid_size ≠ 0 := by
  unfold CyclicMap.local_from_global
  split_ifs with h <;> simp [h]

theorem CyclicMap.cyclic_lfg_eval_residue {m : CyclicMap} (hp : 0 < m.grid_size)
    {g : Int} (hres : (g - m.start) % m.grid_size = 0) :
    m.local_from_global g = .ok ((g - m.start) / m.grid_size) := by
  unfold CyclicMap.local_from_global
  rw [Int.fmod_eq_emod _ (le_of_lt hp), Int.fdiv_eq_ediv _ (le_of_lt hp)]
  rw [if_neg (not_not.mpr hres)]

theorem CyclicMap.cyclic_gfl_oob {m : CyclicMap} {l : Int} (h : m.local_size ≤ l) :
    m.global_from_local l = .error .indexError := by
  unfold CyclicMap.global_from_local
  rw [if_pos (by omega)]

theorem CyclicMap.cyclic_lfg_ok_of_mem {n p r s : Int} {m : CyclicMap}
    (hm : CyclicMap.init n p r s = .ok m) (hr : 0 ≤ r) {g : Int}
    (hg : g ∈ m.global_index) :
    ∃ l, m.local_from_global g = .ok l ∧ 0 ≤ l ∧ l < m.local_size := by
  obtain ⟨hsr, hlt, rfl⟩ := CyclicMap.cyclic_init_ok.mp hm
  subst hsr
  have hp : 0 < p := by omega
  unfold CyclicMap.global_index at hg
  dsimp only at hg
  rw [mem_pyRangeStep hp] at hg
  obtain ⟨hsg, hgn, hmod⟩ := hg
  refine ⟨(g - s) / p, CyclicMap.cyclic_lfg_eval_residue hp hmod, ?_, ?_⟩
  · exact Int.ediv_nonneg (by omega) (le_of_lt hp)
  · show (g - s) / p < (n - 1 - s).fdiv p + 1
    rw [Int.fdiv_eq_ediv _ (le_of_lt hp), Int.lt_add_one_iff]
    exact Int.ediv_le_ediv hp (by omega)

theorem CyclicMap.cyclic_lfg_escape {n p r s : Int} {m : CyclicMap}
    (hm : CyclicMap.init n p r s = .ok m) (hr : 0 ≤ r) {g : Int}
    (hg : g ∉ m.global_index) (hres : (g - m.start).fmod m.grid_size = 0) :
    ∃ l, m.local_from_global g = .ok l ∧ (l < 0 ∨ m.local_size ≤ l) := by
  obtain ⟨hsr, hlt, rfl⟩ := CyclicMap.cyclic_init_ok.mp hm
  subst hsr
  have hp : 0 < p := by omega
  dsimp only at hres
  rw [Int.fmod_eq_emod _ (le_of_lt hp)] at hres
  unfold CyclicMap.global_index at hg
  dsimp only at hg
  rw [mem_pyRangeStep hp] at hg
  push_neg at hg
  refine ⟨(g - s) / p, CyclicMap.cyclic_lfg_eval_residue hp hres, ?_⟩
  by_cases hgs : s ≤ g
  · right
    have hgn : n ≤ g := by
      by_contra hc
      push_neg at hc
      exact hg hgs hc hres
    have hdvd : p ∣ g - s := Int.dvd_of_emod_eq_zero hres
    have hqmul : (g - s) / p * p = g - s := Int.ediv_mul_cancel hdvd
    show (n - 1 - s).fdiv p + 1 ≤ (g - s) / p
    rw [Int.fdiv_eq_ediv _ (le_of_lt hp)]
    by_contra hc
    push_neg at hc
    rw [Int.lt_add_one_iff, Int.le_ediv_iff_mul_le hp, hqmul] at hc
    omega
  · left
    exact Int.ediv_neg' (by omega) hp

theorem BlockCyclicMap.bc_lfg_error_iff (m : BlockCyclicMap) (g : Int) :
    m.local_from_global g = .error .indexError ↔
      (g.fdiv m.block_size - m.start_block).fmod m.grid_size ≠ 0 := by
  unfold BlockCyclicMap.local_from_global
  dsimp only
  split_ifs with h <;> simp [h]

theorem BlockCyclicMap.bc_lfg_eval_residue {m : BlockCyclicMap}
    (hb : 0 < m.block_size) (hp : 0 < m.grid_size) {g : Int}
    (hres : (g / m.block_size - m.start_block) % m.grid_size = 0) :
    m.local_from_global g =
      .ok (m.block_size * ((g / m.block_size - m.start_block) / m.grid_size)
            + g % m.block_size) := by
  unfold BlockCyclicMap.local_from_global
  dsimp only
  rw [Int.fdiv_eq_ediv g (le_of_lt hb), Int.fmod_eq_emod g (le_of_lt hb),
    Int.fmod_eq_emod _ (le_of_lt hp), Int.fdiv_eq_ediv _ (le_of_lt hp)]
  rw [if_neg (not_not.mpr hres)]

theorem BlockCyclicMap.bc_gfl_oob {m : BlockCyclicMap} {l : Int}
    (h : m.local_size ≤ l) :
    m.global_from_local l = .error .indexError := by
  unfold BlockCyclicMap.global_from_local
  rw [if_pos (by omega)]

theorem UnstructuredMap.u_lfg_error_iff (m : UnstructuredMap) (g : Int) :
    m.local_from_global g = .error .indexError ↔ g ∉ m.indices := by
  unfold UnstructuredMap.local_from_global
  rw [← pyListIndex_none_iff]
  cases h : pyListIndex m.indices g <;> simp [h]

theorem UnstructuredMap.u_lfg_ok_of_mem {m : UnstructuredMap} {g : Int}
    (hg : g ∈ m.indices) :
    ∃ l, m.local_from_global g = .ok l ∧ 0 ≤ l ∧ l < m.local_size := by
  unfold UnstructuredMap.local_from_global
  cases h : pyListIndex m.indices g with
  | none => exact absurd (pyListIndex_none_iff.mp h) (by simpa using hg)
  | some i =>
    have := pyListIndex_some_lt h
    refine ⟨(i : Int), rfl, Int.ofNat_nonneg i, ?_⟩
    unfold UnstructuredMap.local_size
    omega

theorem UnstructuredMap.u_gfl_oob {m : UnstructuredMap} {l : Int}
    (h : m.local_size ≤ l) :
    m.global_from_local l = .error .indexError := by
  unfold UnstructuredMap.global_from_local
  exact pyGetItem_oob h

theorem BlockCyclicMap.bc_lfg_ok_of_mem {m : BlockCyclicMap}
    (hb : 0 < m.block_size) (hsb : 0 ≤ m.start_block)
    (hsbp : m.start_block < m.grid_size)
    (hls : m.local_size =
      ((m.global_size / m.block_size - 1 - m.start_block) / m.grid_size + 1)
        * m.block_size)
    (hnb : m.global_size / m.block_size * m.block_size = m.global_size)
    {g : Int} (hg : g ∈ m.global_index) :
    ∃ l, m.local_from_global g = .ok l ∧ 0 ≤ l ∧ l < m.local_size := by
  have hp : 0 < m.grid_size := lt_of_le_of_lt hsb hsbp
  rw [BlockCyclicMap.bc_mem_global_index hb hsb hsbp hls hnb] at hg
  obtain ⟨h0, hgn, hres⟩ := hg
  obtain ⟨s, sb, b, p, ls, n⟩ := m
  dsimp only at *
  have hres' : (g / b - sb) % p = 0 := by
    rw [← Int.emod_eq_emod_iff_emod_sub_eq_zero, hres, Int.emod_eq_of_lt hsb hsbp]
  refine ⟨_, BlockCyclicMap.bc_lfg_eval_residue hb hp hres', ?_, ?_⟩
  all_goals dsimp only
  · have hB0 : 0 ≤ g / b := Int.ediv_nonneg h0 (le_of_lt hb)
    have h2 := Int.ediv_add_emod (g / b) p
    have h3 : 0 ≤ (g / b) / p := Int.ediv_nonneg hB0 (le_of_lt hp)
    have h4 : 0 ≤ p * ((g / b) / p) := mul_nonneg (le_of_lt hp) h3
    have hBsb : sb ≤ g / b := by omega
    have hq0 : 0 ≤ (g / b - sb) / p := Int.ediv_nonneg (by omega) (le_of_lt hp)
    have h5 : 0 ≤ b * ((g / b - sb) / p) := mul_nonneg (le_of_lt hb) hq0
    have ho0 : 0 ≤ g % b := Int.emod_nonneg g (ne_of_gt hb)
    omega
  · rw [hls]
    have hdvd : p ∣ (g / b - sb) := Int.dvd_of_emod_eq_zero hres'
    have hqmul : (g / b - sb) / p * p = g / b - sb := Int.ediv_mul_cancel hdvd
    have hBN : g / b < n / b := by
      rw [Int.ediv_lt_iff_lt_mul hb, hnb]; exact hgn
    have hqL : (g / b - sb) / p < (n / b - 1 - sb) / p + 1 := by
      rw [Int.lt_add_one_iff, Int.le_ediv_iff_mul_le hp, hqmul]
      omega
    have ho0 : 0 ≤ g % b := Int.emod_nonneg g (ne_of_gt hb)
    have hob : g % b < b := Int.emod_lt_of_pos g hb
    have h5 : b * ((g / b - sb) / p) + g % b < b * ((g / b - sb) / p + 1) := by
      have e : b * ((g / b - sb) / p + 1) = b * ((g / b - sb) / p) + b := by ring
      omega
    have h6 : b * ((g / b - sb) / p + 1) ≤ b * ((n / b - 1 - sb) / p + 1) :=
      mul_le_mul_of_nonneg_left (by omega) (le_of_lt hb)
    have h7 : b * ((n / b - 1 - sb) / p + 1) = ((n / b - 1 - sb) / p + 1) * b := by
      ring
    omega

theorem BlockCyclicMap.bc_lfg_escape {m : BlockCyclicMap}
    (hb : 0 < m.block_size) (hsb : 0 ≤ m.start_block)
    (hsbp : m.start_block < m.grid_size)
    (hls : m.local_size =
      ((m.global_size / m.block_size - 1 - m.start_block) / m.grid_size + 1)
        * m.block_size)
    (hnb : m.global_size / m.block_size * m.block_size = m.global_size)
    {g : Int} (hg : g ∉ m.global_index)
    (hres : (g.fdiv m.block_size - m.start_block).fmod m.grid_size = 0) :
    ∃ l, m.local_from_global g = .ok l ∧ (l < 0 ∨ m.local_size ≤ l) := by
  have hp : 0 < m.grid_size := lt_of_le_of_lt hsb hsbp
  rw [BlockCyclicMap.bc_mem_global_index hb hsb hsbp hls hnb] at hg
  push_neg at hg
  rw [Int.fdiv_eq_ediv g (le_of_lt hb), Int.fmod_eq_emod _ (le_of_lt hp)] at hres
  obtain ⟨s, sb, b, p, ls, n⟩ := m
  dsimp only at *
  refine ⟨_, BlockCyclicMap.bc_lfg_eval_residue hb hp hres, ?_⟩
  dsimp only
  have ho0 : 0 ≤ g % b := Int.emod_nonneg g (ne_of_gt hb)
  have hob : g % b < b := Int.emod_lt_of_pos g hb
  have hgdich : g < 0 ∨ n ≤ g := by
    by_contra hc
    push_neg at hc
    have hmem : (g / b) % p = sb := by
      rw [← Int.emod_eq_emod_iff_emod_sub_eq_zero] at hres
      rw [hres, Int.emod_eq_of_lt hsb hsbp]
    exact hg hc.1 hc.2 hmem
  rcases hgdich with hneg | hge
  · left
    have hB : g / b < 0 := Int.ediv_neg' hneg hb
    have hq : (g / b - sb) / p < 0 := Int.ediv_neg' (by omega) hp
    have hbq : b * ((g / b - sb) / p) ≤ b * (-1) :=
      mul_le_mul_of_nonneg_left (by omega) (le_of_lt hb)
    have e : b * (-1 : Int) = -b := by ring
    omega
  · right
    rw [hls]
    have hBN : n / b ≤ g / b := by
      rw [Int.le_ediv_iff_mul_le hb, hnb]; exact hge
    have hdvd : p ∣ (g / b - sb) := Int.dvd_of_emod_eq_zero hres
    have hqmul : (g / b - sb) / p * p = g / b - sb := Int.ediv_mul_cancel hdvd
    have hqL : (n / b - 1 - sb) / p + 1 ≤ (g / b - sb) / p := by
      by_contra hc
      push_neg at hc
      rw [Int.lt_add_one_iff, Int.le_ediv_iff_mul_le hp, hqmul] at hc
      omega
    have h6 : b * ((n / b - 1 - sb) / p + 1) ≤ b * ((g / b - sb) / p) :=
      mul_le_mul_of_nonneg_left hqL (le_of_lt hb)
    have h7 : ((n / b - 1 - sb) / p + 1) * b = b * ((n / b - 1 - sb) / p + 1) := by
      ring
    omega

/-! ## Claim C3 -/

/-- C3 counterexample: `CyclicMap(4, 2, 0, 0)` owns `{0, 2}`; the
global index 6 is not owned (it is past `global_size`), yet
`local_from_global(6)` raises nothing and returns 3 (an out-of-range
local index), because the code checks only the residue. -/
theorem C3_counterexample :
    CyclicMap.init 4 2 0 0 = .ok (CyclicMap.mk 4 2 0 0) ∧
    (6 : Int) ∉ (CyclicMap.mk 4 2 0 0).global_index ∧
    (CyclicMap.mk 4 2 0 0).local_from_global 6 = .ok 3 :=
  ⟨rfl, by decide, rfl⟩

/-- C3 amended: `global_from_local` fails with `IndexError` for every
`l >= local_size` (all four variants), and `local_from_global` of an
owned index returns a local index in `[0, local_size)`; but
`local_from_global` fails exactly when Block's range check or
Unstructured's membership check fails, while for Cyclic and
Block-Cyclic it fails exactly when the residue check fails: a
non-owned global index with the owned residue (i.e. `g < 0` or
`g >= global_size`) is not rejected and yields an out-of-range local
index. -/
theorem C3_boundary_amended :
    (∀ (m : BlockMap) (g : Int),
      (m.local_from_global g = .error .indexError ↔ g ∉ m.global_index) ∧
      (g ∈ m.global_index → m.local_from_global g = .ok (g - m.start) ∧
        0 ≤ g - m.start ∧ g - m.start < m.local_size)) ∧
    (∀ (m : BlockMap) (l : Int), m.local_size ≤ l →
      m.global_from_local l = .error .indexError) ∧
    (∀ (n p r s : Int) (m : CyclicMap), CyclicMap.init n p r s = .ok m → 0 ≤ r →
      (∀ g : Int, m.local_from_global g = .error .indexError ↔
        (g - m.start).fmod m.grid_size ≠ 0) ∧
      (∀ g ∈ m.global_index, ∃ l, m.local_from_global g = .ok l ∧
        0 ≤ l ∧ l < m.local_size) ∧
      (∀ g : Int, g ∉ m.global_index → (g - m.start).fmod m.grid_size = 0 →
        ∃ l, m.local_from_global g = .ok l ∧ (l < 0 ∨ m.local_size ≤ l)) ∧
      (∀ l : Int, m.local_size ≤ l → m.global_from_local l = .error .indexError)) ∧
    (∀ (n p r b : Int) (m : BlockCyclicMap),
      BlockCyclicMap.init n p r (r * b) b = .ok m → 0 < b → 0 ≤ r → r < p →
      (∀ g : Int, m.local_from_global g = .error .indexError ↔
        (g.fdiv m.block_size - m.start_block).fmod m.grid_size ≠ 0) ∧
      (∀ g ∈ m.global_index, ∃ l, m.local_from_global g = .ok l ∧
        0 ≤ l ∧ l < m.local_size) ∧
      (∀ g : Int, g ∉ m.global_index →
        (g.fdiv m.block_size - m.start_block).fmod m.grid_size = 0 →
        ∃ l, m.local_from_global g = .ok l ∧ (l < 0 ∨ m.local_size ≤ l)) ∧
      (∀ l : Int, m.local_size ≤ l → m.global_from_local l = .error .indexError)) ∧
    (∀ (m : UnstructuredMap) (g : Int),
      (m.local_from_global g = .error .indexError ↔ g ∉ m.indices) ∧
      (g ∈ m.indices → ∃ l, m.local_from_global g = .ok l ∧
        0 ≤ l ∧ l < m.local_size)) ∧
    (∀ (m : UnstructuredMap) (l : Int), m.local_size ≤ l →
      m.global_from_local l = .error .indexError) := by
  refine ⟨fun m g => ⟨BlockMap.block_lfg_error_iff m g, fun hg => BlockMap.block_lfg_ok_of_mem hg⟩,
    fun m l h => BlockMap.block_gfl_oob h,
    ?_, ?_,
    fun m g => ⟨UnstructuredMap.u_lfg_error_iff m g,
      fun hg => UnstructuredMap.u_lfg_ok_of_mem hg⟩,
    fun m l h => UnstructuredMap.u_gfl_oob h⟩
  · intro n p r s m hm hr
    exact ⟨CyclicMap.cyclic_lfg_error_iff m,
      fun g hg => CyclicMap.cyclic_lfg_ok_of_mem hm hr hg,
      fun g hg hres => CyclicMap.cyclic_lfg_escape hm hr hg hres,
      fun l h => CyclicMap.cyclic_gfl_oob h⟩
  · intro n p r b m hm hb hr hrp
    have hp : 0 < p := by omega
    obtain ⟨e_sb, e_b, e_p, e_n, e_ls, e_nb⟩ := bc_init_fields hb hp hm
    have hb' : 0 < m.block_size := by rw [e_b]; exact hb
    have hsb' : 0 ≤ m.start_block := by rw [e_sb]; exact hr
    have hsbp' : m.start_block < m.grid_size := by rw [e_sb, e_p]; exact hrp
    have hls' : m.local_size =
        ((m.global_size / m.block_size - 1 - m.start_block) / m.grid_size + 1)
          * m.block_size := by
      rw [e_ls, e_sb, e_b, e_p, e_n]
    have hnb' : m.global_size / m.block_size * m.block_size = m.global_size := by
      rw [e_b, e_n]; exact e_nb
    exact ⟨BlockCyclicMap.bc_lfg_error_iff m,
      fun g hg => BlockCyclicMap.bc_lfg_ok_of_mem hb' hsb' hsbp' hls' hnb' hg,
      fun g hg hres => BlockCyclicMap.bc_lfg_escape hb' hsb' hsbp' hls' hnb' hg hres,
      fun l h => BlockCyclicMap.bc_gfl_oob h⟩

/-- C3 witness: the amended boundary behaviour at concrete maps. -/
theorem C3_boundary_amended_witness :
    (BlockMap.mk 31 4 0 0 8).local_from_global 9 = .error .indexError ∧
    (BlockMap.mk 31 4 0 0 8).global_from_local 8 = .error .indexError ∧
    (∃ l, (CyclicMap.mk 16 4 2 2).local_from_global 6 = .ok l ∧
      0 ≤ l ∧ l < (CyclicMap.mk 16 4 2 2).local_size) ∧
    (∃ l, (CyclicMap.mk 16 4 2 2).local_from_global 18 = .ok l ∧
      (l < 0 ∨ (CyclicMap.mk 16 4 2 2).local_size ≤ l)) ∧
    (∃ l, (BlockCyclicMap.mk 2 1 2 4 4 16).local_from_global 3 = .ok l ∧
      0 ≤ l ∧ l < (BlockCyclicMap.mk 2 1 2 4 4 16).local_size) ∧
    (UnstructuredMap.mk 10 1 0 [5, 1, 9]).local_from_global 2 =
      .error .indexError := by
  refine ⟨?_, ?_, ?_, ?_, ?_, ?_⟩
  · exact (C3_boundary_amended.1 (BlockMap.mk 31 4 0 0 8) 9).1.mpr (by decide)
  · exact C3_boundary_amended.2.1 _ 8 (by decide)
  · exact (C3_boundary_amended.2.2.1 16 4 2 2 _ rfl (by decide)).2.1 6 (by decide)
  · exact (C3_boundary_amended.2.2.1 16 4 2 2 _ rfl (by decide)).2.2.1 18
      (by decide) (by decide)
  · exact (C3_boundary_amended.2.2.2.1 16 4 1 2 _ rfl (by decide) (by decide)
      (by decide)).2.1 3 (by decide)
  · exact (C3_boundary_amended.2.2.2.2.1 _ 2).1.mpr (by decide)

/-! ## Equivalence lemmas (Block-Cyclic degenerations) -/

theorem cyclic_len_ediv {n s p : Int} (hp : 0 < p) :
    (n - s + p - 1).fdiv p = (n - 1 - s).fdiv p + 1 := by
  rw [Int.fdiv_eq_ediv _ (le_of_lt hp), Int.fdiv_eq_ediv _ (le_of_lt hp)]
  have e : n - s + p - 1 = (n - 1 - s) + p := by ring
  rw [e, shift_ediv (ne_of_gt hp)]


theorem bc_block_size_one_eq_cyclic {n p r : Int} {bc : BlockCyclicMap}
    {cm : CyclicMap} (hr : 0 ≤ r)
    (hbc : BlockCyclicMap.init n p r r 1 = .ok bc)
    (hcm : CyclicMap.init n p r r = .ok cm) :
    bc.local_size = cm.local_size ∧
    (∀ g : Int, bc.local_from_global g = cm.local_from_global g) ∧
    (∀ l : Int, bc.global_from_local l = cm.global_from_local l) ∧
    bc.global_index = cm.global_index := by
  obtain ⟨-, hlt, rfl⟩ := CyclicMap.cyclic_init_ok.mp hcm
  obtain ⟨-, -, rfl⟩ := BlockCyclicMap.bc_init_ok.mp hbc
  have hp : 0 < p := by omega
  have hcls : CyclicMap.local_size ⟨n, p, r, r⟩ = (n - 1 - r).fdiv p + 1 := rfl
  have hls : BlockCyclicMap.local_size
      ⟨r, r.fdiv 1, 1, p, ((n.fdiv 1 - 1 - r).fdiv p + 1) * 1, n⟩
      = (n - 1 - r).fdiv p + 1 := by
    show ((n.fdiv 1 - 1 - r).fdiv p + 1) * 1 = (n - 1 - r).fdiv p + 1
    simp [Int.fdiv_one]
  refine ⟨by rw [hls, hcls], ?_, ?_, ?_⟩
  · intro g
    unfold BlockCyclicMap.local_from_global CyclicMap.local_from_global
    dsimp only
    simp [Int.fdiv_one]
  · intro l
    unfold BlockCyclicMap.global_from_local CyclicMap.global_from_local
    dsimp only
    have hlsr : ((n.fdiv 1 - 1 - r).fdiv p + 1) * 1 = (n - 1 - r).fdiv p + 1 := by
      simp [Int.fdiv_one]
    rw [hlsr, hcls]
    simp only [Int.fdiv_one, mul_one, Int.fmod_one, add_zero]
  · rw [BlockCyclicMap.global_index_eq Int.one_pos]
    show _ = pyRangeStep r n p
    unfold pyRangeStep
    rw [cyclic_len_ediv hp, hls]
    apply List.map_congr_left
    intro i hi
    dsimp only
    simp only [Int.ediv_one, Int.emod_one, mul_one, add_zero, Int.fdiv_one]
    ring

theorem bc_grid_size_one_eq_block {n b : Int} {bc : BlockCyclicMap}
    (hb : 0 < b) (hbc : BlockCyclicMap.init n 1 0 0 b = .ok bc) :
    bc.local_size = (BlockMap.mk n 1 0 0 n).local_size ∧
    (∀ g : Int, 0 ≤ g → g < n →
      bc.local_from_global g = (BlockMap.mk n 1 0 0 n).local_from_global g) ∧
    (∀ l : Int, 0 ≤ l → l < n →
      bc.global_from_local l = (BlockMap.mk n 1 0 0 n).global_from_local l) ∧
    bc.global_index = (BlockMap.mk n 1 0 0 n).global_index := by
  obtain ⟨-, hn1, rfl⟩ := BlockCyclicMap.bc_init_ok.mp hbc
  have hlsr : ((n.fdiv b - 1 - 0).fdiv 1 + 1) * b = n := by
    rw [Int.fdiv_one]
    have e : n.fdiv b - 1 - 0 + 1 = n.fdiv b := by ring
    rw [e]
    exact hn1
  have hbls : (BlockMap.mk n 1 0 0 n).local_size = n := by
    show n - 0 = n
    ring
  refine ⟨?_, ?_, ?_, ?_⟩
  · show ((n.fdiv b - 1 - 0).fdiv 1 + 1) * b = _
    rw [hlsr, hbls]
  · intro g h0 hgn
    unfold BlockCyclicMap.local_from_global BlockMap.local_from_global
    dsimp only
    rw [Int.fmod_one]
    rw [if_neg (by simp), if_neg (by omega)]
    rw [Int.fdiv_one, Int.zero_fdiv, sub_zero, sub_zero]
    congr 1
    have := Int.fdiv_add_fmod g b
    omega
  · intro l h0 hln
    unfold BlockCyclicMap.global_from_local BlockMap.global_from_local
    dsimp only
    rw [hlsr, hbls]
    rw [if_neg (by omega), if_neg (by omega)]
    rw [Int.zero_fdiv]
    congr 1
    have e2 : l.fdiv b * 1 + 0 = l.fdiv b := by ring
    rw [e2]
    have h3 := Int.fdiv_add_fmod l b
    have h4 : l.fdiv b * b = b * l.fdiv b := mul_comm _ _
    omega
  · rw [BlockCyclicMap.global_index_eq (show (0:Int) < b from hb)]
    show _ = pyRange 0 n
    unfold pyRange pyRangeStep
    dsimp only
    have hlarg : (((n.fdiv b - 1 - 0).fdiv 1 + 1) * b).toNat = n.toNat := by
      rw [hlsr]
    have hrarg : ((n - 0 + 1 - 1).fdiv 1).toNat = n.toNat := by
      have e3 : n - 0 + 1 - 1 = n := by ring
      rw [e3, Int.fdiv_one]
    rw [hlarg, hrarg]
    apply List.map_congr_left
    intro i hi
    rw [Int.zero_fdiv]
    simp only [mul_one, add_zero, zero_add, one_mul]
    exact Int.ediv_add_emod' (i : Int) b

/-! ## Claim C5 -/

theorem bc_i32_eq_cyclic {n p r : Int} {bc : BlockCyclicMap}
    {cm : CyclicMap} (hr : 0 ≤ r)
    (hbc : BlockCyclicMap.init n p r r 1 = .ok bc)
    (hcm : CyclicMap.init n p r r = .ok cm) (hn31 : n ≤ 2 ^ 31) :
    bc.global_index_i32 = cm.global_index := by
  have hraw := (bc_block_size_one_eq_cyclic hr hbc hcm).2.2.2
  unfold BlockCyclicMap.global_index_i32
  rw [hraw]
  conv_rhs => rw [← List.map_id cm.global_index]
  apply List.map_congr_left
  intro x hx
  obtain ⟨hsr, hlt, rfl⟩ := CyclicMap.cyclic_init_ok.mp hcm
  have hmem := (CyclicMap.cyclic_mem_global_index
    (show (0:Int) ≤ r from hr) (show r < p from hlt)).mp hx
  dsimp only at hmem
  rw [id_eq]
  exact toInt32_eq_self (by omega) (by omega)

theorem bc_i32_eq_block {n b : Int} {bc : BlockCyclicMap} (hb : 0 < b)
    (hbc : BlockCyclicMap.init n 1 0 0 b = .ok bc) (hn31 : n ≤ 2 ^ 31) :
    bc.global_index_i32 = (BlockMap.mk n 1 0 0 n).global_index := by
  have hraw := (bc_grid_size_one_eq_block hb hbc).2.2.2
  unfold BlockCyclicMap.global_index_i32
  rw [hraw]
  conv_rhs => rw [← List.map_id (BlockMap.mk n 1 0 0 n).global_index]
  apply List.map_congr_left
  intro x hx
  unfold BlockMap.global_index at hx
  rw [mem_pyRange] at hx
  dsimp only at hx
  rw [id_eq]
  exact toInt32_eq_self (by omega) (by omega)

/-- C5 counterexample: the claim quantifies over Block-Cyclic maps
whose `grid_rank` need not match; with `grid_rank` 0 but `start` 1
(`block_size` 1, `global_size` 3, `grid_size` 2) the Block-Cyclic map
enumerates `[1, 3]` while "the Cyclic map with equal start/grid_size/
global_size" (whose `grid_rank` is forced to equal `start` = 1) owns
`[1]`; a Block-Cyclic map with `grid_size` 1, `start` 0 but
`grid_rank` 1 enumerates `[0, 1]` while the Block map spanning the
range owns `[0, 1, 2, 3]`; and even with matching `grid_rank`, at
`global_size = 2^32` the Block-Cyclic `np.int32` enumeration
(maps.py:233) wraps — it contains `-2^31`, which the Block map's
enumeration never does. -/
theorem C5_counterexample :
    (BlockCyclicMap.init 3 2 0 1 1 = .ok (BlockCyclicMap.mk 1 1 1 2 2 3) ∧
     CyclicMap.init 3 2 1 1 = .ok (CyclicMap.mk 3 2 1 1) ∧
     (BlockCyclicMap.mk 1 1 1 2 2 3).global_index = [1, 3] ∧
     (CyclicMap.mk 3 2 1 1).global_index = [1]) ∧
    (BlockCyclicMap.init 4 1 1 0 2 = .ok (BlockCyclicMap.mk 0 0 2 1 2 4) ∧
     (BlockCyclicMap.mk 0 0 2 1 2 4).global_index = [0, 1] ∧
     (BlockMap.mk 4 1 0 0 4).global_index = [0, 1, 2, 3]) ∧
    (BlockCyclicMap.init (2 ^ 32) 1 0 0 1 =
       .ok (BlockCyclicMap.mk 0 0 1 1 (2 ^ 32) (2 ^ 32)) ∧
     (-(2 ^ 31) : Int) ∈
       (BlockCyclicMap.mk 0 0 1 1 (2 ^ 32) (2 ^ 32)).global_index_i32 ∧
     (-(2 ^ 31) : Int) ∉ (BlockMap.mk (2 ^ 32) 1 0 0 (2 ^ 32)).global_index) := by
  refine ⟨⟨rfl, rfl, by decide, by decide⟩, ⟨rfl, by decide, by decide⟩,
    rfl, ?_, ?_⟩
  · unfold BlockCyclicMap.global_index_i32 BlockCyclicMap.global_index
    refine List.mem_map.mpr ⟨2 ^ 31, ?_, by decide⟩
    refine List.mem_map.mpr ⟨2 ^ 31, ?_, by decide⟩
    exact List.mem_range.mpr (by decide)
  · intro hc
    unfold BlockMap.global_index at hc
    rw [mem_pyRange] at hc
    dsimp only at hc
    omega

/-- C5 amended: the equivalences hold once the Block-Cyclic map's
`grid_rank` also matches: a Block-Cyclic map built with `block_size=1`,
`grid_rank = start` behaves identically to the Cyclic map with the
same parameters (same local_size, same translations on every index,
and, provided `global_size <= 2^31` so the `np.int32` enumeration of
maps.py:233 does not wrap, the same owned enumeration), and a
Block-Cyclic map built with `grid_size=1`, `grid_rank=0`, `start=0`
behaves identically, over `[0, global_size)` and under the same
enumeration proviso, to the Block map spanning the whole range. -/
theorem C5_equivalence_amended :
    (∀ (n p r : Int) (bc : BlockCyclicMap) (cm : CyclicMap), 0 ≤ r →
      BlockCyclicMap.init n p r r 1 = .ok bc →
      CyclicMap.init n p r r = .ok cm →
      bc.local_size = cm.local_size ∧
      (∀ g : Int, bc.local_from_global g = cm.local_from_global g) ∧
      (∀ l : Int, bc.global_from_local l = cm.global_from_local l) ∧
      (n ≤ 2 ^ 31 → bc.global_index_i32 = cm.global_index)) ∧
    (∀ (n b : Int) (bc : BlockCyclicMap), 0 < b →
      BlockCyclicMap.init n 1 0 0 b = .ok bc →
      bc.local_size = (BlockMap.mk n 1 0 0 n).local_size ∧
      (∀ g : Int, 0 ≤ g → g < n →
        bc.local_from_global g = (BlockMap.mk n 1 0 0 n).local_from_global g) ∧
      (∀ l : Int, 0 ≤ l → l < n →
        bc.global_from_local l = (BlockMap.mk n 1 0 0 n).global_from_local l) ∧
      (n ≤ 2 ^ 31 →
        bc.global_index_i32 = (BlockMap.mk n 1 0 0 n).global_index)) := by
  constructor
  · intro n p r bc cm hr hbc hcm
    have h := bc_block_size_one_eq_cyclic hr hbc hcm
    exact ⟨h.1, h.2.1, h.2.2.1, fun hn31 => bc_i32_eq_cyclic hr hbc hcm hn31⟩
  · intro n b bc hb hbc
    have h := bc_grid_size_one_eq_block hb hbc
    exact ⟨h.1, h.2.1, h.2.2.1, fun hn31 => bc_i32_eq_block hb hbc hn31⟩

/-- C5 witness: the two equivalences at concrete maps
(`n=16, p=4, r=1, block_size=1` and `n=16, grid_size=1, block_size=4`). -/
theorem C5_equivalence_amended_witness :
    (BlockCyclicMap.mk 1 1 1 4 4 16).global_index_i32 =
      (CyclicMap.mk 16 4 1 1).global_index ∧
    (BlockCyclicMap.mk 0 0 4 1 16 16).global_index_i32 =
      (BlockMap.mk 16 1 0 0 16).global_index :=
  ⟨(C5_equivalence_amended.1 16 4 1 _ _ (by decide) rfl rfl).2.2.2 (by norm_num),
   (C5_equivalence_amended.2 16 4 _ (by decide) rfl).2.2.2 (by norm_num)⟩

theorem dictGet_ok_or_key (pairs : List (Int × Int)) (k : Int) :
    (∃ v, dictGet pairs k = .ok v) ∨ dictGet pairs k = .error .keyError := by
  unfold dictGet
  cases h : pairs.reverse.find? (fun p => p.1 = k) with
  | none => exact Or.inr rfl
  | some q => exact Or.inl ⟨q.2, rfl⟩

theorem dictGet_err_iff (pairs : List (Int × Int)) (k : Int) :
    dictGet pairs k = .error .keyError ↔ k ∉ pairs.map Prod.fst := by
  unfold dictGet
  cases h : pairs.reverse.find? (fun p => p.1 = k) with
  | none =>
    rw [List.find?_eq_none] at h
    simp only [List.mem_reverse, decide_eq_true_eq] at h
    have hnm : k ∉ pairs.map Prod.fst := by
      simp only [List.mem_map, not_exists]
      rintro q ⟨hq, hqk⟩
      exact h q hq hqk
    exact iff_of_true rfl hnm
  | some q =>
    have hsat := List.find?_some h
    have hqm := List.mem_of_find?_eq_some h
    rw [List.mem_reverse] at hqm
    rw [decide_eq_true_eq] at hsat
    have hmem : k ∈ pairs.map Prod.fst := List.mem_map.mpr ⟨q, hqm, hsat⟩
    exact iff_of_false (by intro hc; cases hc) (not_not_intro hmem)

theorem dictGet_ok_iff (pairs : List (Int × Int)) (k : Int) :
    (∃ v, dictGet pairs k = .ok v) ↔ k ∈ pairs.map Prod.fst := by
  constructor
  · rintro ⟨v, hv⟩
    by_contra hk
    have herr := (dictGet_err_iff pairs k).mpr hk
    rw [hv] at herr
    cases herr
  · intro hk
    rcases dictGet_ok_or_key pairs k with h | herr
    · exact h
    · rw [dictGet_err_iff] at herr
      exact absurd hk herr

theorem mapM_ok_of_all {l : List Nat} {f : Nat → Except Err Int}
    (h : ∀ i ∈ l, ∃ v, f i = .ok v) :
    ∃ vs, l.mapM f = .ok vs ∧
      List.Forall₂ (fun i v => f i = .ok v) l vs := by
  induction l with
  | nil => exact ⟨[], rfl, List.Forall₂.nil⟩
  | cons a t ih =>
    obtain ⟨v, hv⟩ := h a (List.mem_cons_self a t)
    obtain ⟨vs, hvs, hfa⟩ := ih (fun i hi => h i (List.mem_cons_of_mem a hi))
    refine ⟨v :: vs, ?_, List.Forall₂.cons hv hfa⟩
    rw [List.mapM_cons, hv, hvs]
    rfl

theorem mapM_err_keyError {l : List Nat} {f : Nat → Except Err Int}
    (hall : ∀ i ∈ l, (∃ v, f i = .ok v) ∨ f i = .error .keyError)
    (hex : ∃ i ∈ l, f i = .error .keyError) :
    l.mapM f = .error .keyError := by
  induction l with
  | nil => simp at hex
  | cons a t ih =>
    rcases hall a (List.mem_cons_self a t) with ⟨v, hv⟩ | herr
    · have hex' : ∃ i ∈ t, f i = .error .keyError := by
        obtain ⟨i, hi, hfi⟩ := hex
        rcases List.mem_cons.mp hi with rfl | hit
        · rw [hv] at hfi; cases hfi
        · exact ⟨i, hit, hfi⟩
      have ht := ih (fun i hi => hall i (List.mem_cons_of_mem a hi)) hex'
      rw [List.mapM_cons, hv, ht]
      rfl
    · rw [List.mapM_cons, herr]
      rfl

theorem mdmap_dim_fun_eq {md : MDMap} {gs : List Int} {dim : Nat}
    {m : AxisMap} {g : Int} (h1 : md.maps[dim]? = some m)
    (h2 : gs[dim]? = some g) :
    (match md.maps[dim]?, gs[dim]? with
     | some m', some g' => dictGet m'.local_index g'
     | _, _ => (.error .indexError : Except Err Int)) =
      dictGet m.local_index g := by
  rw [h1, h2]

/-! ## Claim C7 -/

/-- C7 amended: `MDMap.local_from_global` applies each axis's
`local_index` dictionary lookup independently; when every axis owns
its component it returns the tuple of per-axis local indices, and when
some axis does not own its component it fails with `KeyError` (a dict
lookup miss), not `IndexError` as the claim states. -/
theorem C7_mdmap_amended :
    ∀ (md : MDMap) (gs : List Int), gs.length = md.maps.length →
      ((∀ (dim : Nat) (m : AxisMap) (g : Int), md.maps[dim]? = some m →
          gs[dim]? = some g → g ∈ m.local_index.map Prod.fst) →
        ∃ ls, md.local_from_global gs = .ok ls ∧
          List.Forall₂ (fun dim v =>
            ∀ (m : AxisMap) (g : Int), md.maps[dim]? = some m →
              gs[dim]? = some g → dictGet m.local_index g = .ok v)
            (List.range md.maps.length) ls) ∧
      ((∃ (dim : Nat) (m : AxisMap) (g : Int), md.maps[dim]? = some m ∧
          gs[dim]? = some g ∧ g ∉ m.local_index.map Prod.fst) →
        md.local_from_global gs = .error .keyError) := by
  intro md gs hlen
  constructor
  · intro hown
    obtain ⟨ls, hls, hfa⟩ := mapM_ok_of_all (l := List.range md.maps.length)
      (f := fun dim =>
        match md.maps[dim]?, gs[dim]? with
        | some m, some g => dictGet m.local_index g
        | _, _ => .error .indexError)
      (by
        intro dim hdim
        rw [List.mem_range] at hdim
        have h1 : md.maps[dim]? = some md.maps[dim] :=
          List.getElem?_eq_getElem hdim
        have h2 : gs[dim]? = some gs[dim] :=
          List.getElem?_eq_getElem (by omega)
        dsimp only
        rw [mdmap_dim_fun_eq h1 h2]
        rw [dictGet_ok_iff]
        exact hown dim _ _ h1 h2)
    refine ⟨ls, hls, ?_⟩
    refine List.Forall₂.imp ?_ hfa
    intro dim v hdv m g h1 h2
    try dsimp only at hdv
    rw [mdmap_dim_fun_eq h1 h2] at hdv
    exact hdv
  · rintro ⟨dim, m, g, h1, h2, hnot⟩
    have hdim : dim < md.maps.length := by
      by_contra hc
      push_neg at hc
      rw [List.getElem?_eq_none hc] at h1
      cases h1
    apply mapM_err_keyError
    · intro i hi
      rw [List.mem_range] at hi
      have h1' : md.maps[i]? = some md.maps[i] := List.getElem?_eq_getElem hi
      have h2' : gs[i]? = some gs[i] := List.getElem?_eq_getElem (by omega)
      try dsimp only
      rw [mdmap_dim_fun_eq h1' h2']
      exact dictGet_ok_or_key _ _
    · refine ⟨dim, List.mem_range.mpr hdim, ?_⟩
      dsimp only
      rw [mdmap_dim_fun_eq h1 h2]
      rw [dictGet_err_iff]
      exact hnot

/-- C7 counterexample: a one-axis `MDMap` over `Block [0,4)` queried at
the unowned global index 5 raises `KeyError`, not the claimed
`IndexError`. -/
theorem C7_counterexample :
    (MDMap.mk [.block (BlockMap.mk 4 1 0 0 4)]).local_from_global [5] =
      .error .keyError ∧
    Err.keyError ≠ Err.indexError :=
  ⟨rfl, by decide⟩

/-- C7 witness: the amended behaviour on a concrete one-axis map. -/
theorem C7_mdmap_amended_witness :
    (∃ ls, (MDMap.mk [.block (BlockMap.mk 4 1 0 0 4)]).local_from_global [2] =
      .ok ls) ∧
    (MDMap.mk [.block (BlockMap.mk 4 1 0 0 4)]).local_from_global [7] =
      .error .keyError := by
  constructor
  · have hside : ∀ (dim : Nat) (m : AxisMap) (g : Int),
        (MDMap.mk [.block (BlockMap.mk 4 1 0 0 4)]).maps[dim]? = some m →
        ([2] : List Int)[dim]? = some g → g ∈ m.local_index.map Prod.fst := by
      intro dim m g h1 h2
      cases dim with
      | zero =>
        simp only [List.getElem?_cons_zero, Option.some.injEq] at h1 h2
        subst h1
        subst h2
        decide
      | succ k => simp at h1
    obtain ⟨ls, hls, -⟩ :=
      (C7_mdmap_amended (MDMap.mk [.block (BlockMap.mk 4 1 0 0 4)]) [2] rfl).1 hside
    exact ⟨ls, hls⟩
  · have h7 := C7_mdmap_amended (MDMap.mk [.block (BlockMap.mk 4 1 0 0 4)]) [7] rfl
    exact h7.2 ⟨0, .block (BlockMap.mk 4 1 0 0 4), 7, rfl, rfl, by decide⟩

/-! ## Claim C8 -/

/-- C8 counterexample: a two-rank descriptor table whose per-axis
entries disagree on `dist_type` (`'b'` vs `'u'`) and `global_size`
(10 vs 99), and whose Unstructured indices contain a duplicate, passes
`Context._from_dim_data`'s only check (the per-rank count) and each
rank's reconstruction succeeds: no descriptor-consistency validation
exists. -/
theorem C8_counterexample :
    context_from_dim_data_check [0, 1]
      [[⟨"b", 10, some 0, some 10, some 0, some 2, none, none⟩],
       [⟨"u", 99, none, none, some 1, some 2, none, some [0, 0]⟩]] = .ok () ∧
    MDMap.from_dim_data [⟨"b", 10, some 0, some 10, some 0, some 2, none, none⟩]
      = .ok (MDMap.mk [.block (BlockMap.mk 10 2 0 0 10)]) ∧
    MDMap.from_dim_data [⟨"u", 99, none, none, some 1, some 2, none, some [0, 0]⟩]
      = .ok (MDMap.mk [.unstructured (UnstructuredMap.mk 99 2 1 [0, 0])]) :=
  ⟨rfl, rfl, rfl⟩

/-- C8 amended: reconstruction from a descriptor table validates only
that the table has exactly one `dim_data` per target rank, raising
`TypeError` otherwise; no per-axis `dist_type`/`global_size` agreement,
Block tiling, or Unstructured permutation check is performed, and no
descriptor-consistency error naming axes and ranks exists. -/
theorem C8_validation_amended :
    ∀ (targets : List Nat) (dd : List (List DimDict)),
      (context_from_dim_data_check targets dd = .ok () ↔
        targets.length = dd.length) ∧
      (context_from_dim_data_check targets dd = .error .typeError ↔
        targets.length ≠ dd.length) := by
  intro targets dd
  unfold context_from_dim_data_check
  split_ifs with h
  · constructor
    · exact iff_of_false (by intro hc; cases hc) h
    · exact iff_of_true rfl h
  · constructor
    · exact iff_of_true rfl (by omega)
    · exact iff_of_false (by intro hc; cases hc) (by omega)

/-- C8 witness: the count check at concrete tables. -/
theorem C8_validation_amended_witness :
    context_from_dim_data_check [0, 1] [[], []] = .ok () ∧
    context_from_dim_data_check [0, 1] [[]] = .error .typeError :=
  ⟨(C8_validation_amended [0, 1] [[], []]).1.mpr rfl,
   (C8_validation_amended [0, 1] [[]]).2.mpr (by decide)⟩
